import Mathlib

/-!
A shallow embedding of the `mkdeb` Debian-package builder (Go) in Lean 4,
with theorems checking the natural-language specification against the code.

Modelling conventions:
* Go byte slices are `List Nat` (each element one byte value).
* Go strings are Lean `String`; string contents handled by this program are
  treated as sequences of code points (identical to bytes for ASCII, which is
  all the program itself ever generates).
* Go `nil` slices (distinct from empty ones) are `Option`.
* A Go function that can `panic` is modelled with result type `Option _`
  (`none` = panic); a function that returns a Go `error` is modelled with
  `Except Err _`.  A function that can do both returns `Option (Except Err _)`.
* External collaborators (the POSIX tar encoder, the compression codecs and
  the cryptographic hash functions, all from libraries outside this
  repository) are taken as opaque function parameters of the pipeline.
-/

namespace Mkdeb

/-- A Go byte slice: a list of byte values. -/
abbrev Bytes := List Nat

/-- Byte view of a string (code points; equals the UTF-8 bytes for ASCII). -/
def strBytes (s : String) : Bytes := s.data.map Char.toNat

/-- Overwrite the sublist of `l` starting at `start` with `vals`
(models the Go `for` loops that fill slices of the fixed header array). -/
def listFill (l : Bytes) (start : Nat) (vals : Bytes) : Bytes :=
  l.take start ++ vals ++ l.drop (start + vals.length)

/-- Canonical decimal digits of a natural number, most significant first,
as ASCII byte values.  Models Go's `fmt.Sprintf("%d", ...)` /
`strconv` formatting (an external library) on non-negative values. -/
def decBytesAux : Nat → Nat → Bytes
  | 0, _ => []
  | fuel + 1, n =>
    if n < 10 then [48 + n]
    else decBytesAux fuel (n / 10) ++ [48 + n % 10]

/-- Canonical decimal byte string of `n`. -/
def decBytes (n : Nat) : Bytes := decBytesAux (n + 1) n

/-- Canonical decimal digits of a natural number as characters. -/
def decCharsAux : Nat → Nat → List Char
  | 0, _ => []
  | fuel + 1, n =>
    if n < 10 then [Char.ofNat (48 + n)]
    else decCharsAux fuel (n / 10) ++ [Char.ofNat (48 + n % 10)]

/-- Canonical decimal string of `n` (Go `strconv.FormatInt` on `n ≥ 0`). -/
def decStr (n : Nat) : String := ⟨decCharsAux (n + 1) n⟩

/-- Canonical decimal string of an integer (Go `strconv.FormatInt`). -/
def intStr (i : Int) : String :=
  if i < 0 then "-" ++ decStr i.natAbs else decStr i.natAbs

/-! ## The ar container encoder (`writeArEntry` / `writeArFile`) -/

/-- The fixed 60-byte header template of `writeArEntry`: 16 `?` placeholder
bytes for the name, the literal timestamp/uid/gid/mode block, 10 `?`
placeholder bytes for the size, and the closing "`\n". -/
def arHdrBase : Bytes := strBytes "????????????????1577836800  0     0     100644  ??????????`\n"

/-- The 16-byte name field: name bytes, space padding beyond
(the per-index loop of `writeArEntry`; the name is at most 16 bytes when the
field is built, because longer names already hit the fatal check). -/
def arNameField (name : Bytes) : Bytes :=
  name.take 16 ++ List.replicate (16 - name.length) 32

/-- One ar container entry, translated from `writeArEntry`:
a 60-byte header, the raw content bytes, and a single `\n` pad byte when the
size is odd.  Result `none` models the fatal (panic) paths: a name longer
than 16 bytes, and a size whose decimal form does not fit the 10-byte field.
(The `size < 0` fatal check of the source cannot fire here since sizes are
naturals.)  `size` and `content` are separate arguments, as in the source,
which takes a size and an `io.Reader`. -/
def writeArEntry (name : Bytes) (size : Nat) (content : Bytes) : Option Bytes :=
  if 16 < name.length then none
  else
    let sizeStr : Bytes := decBytes size
    let sizeField : Bytes := sizeStr ++ List.replicate (10 - sizeStr.length) 32
    if sizeField.length ≠ 10 then none
    else
      let hdr := listFill (listFill arHdrBase 0 (arNameField name)) 48 sizeField
      some (hdr ++ content ++ (if size % 2 = 1 then [10] else []))

/-- The global ar magic written by `writeArFile`. -/
def arMagic : Bytes := strBytes "!<arch>\n"

/-- The fixed 4-byte `debian-binary` payload of `writeArFile`. -/
def debianBinary : Bytes := strBytes "2.0\n"

/-- Filename suffix per compression algorithm (`compressSuffixArray`). -/
def compressSuffix (algo : Nat) : String :=
  List.getD ["", "", ".gz", ".bz2", ".xz", ".zstd"] algo ""

/-- `writeArFile`: the ar magic, then the `debian-binary`, control and data
entries in fixed order.  The control and data sizes come from seeking the
sealed temporary files to their end, so they equal the byte lengths. -/
def writeArFile (suffix : String) (ctl data : Bytes) : Option Bytes := do
  let e1 ← writeArEntry (strBytes "debian-binary") debianBinary.length debianBinary
  let e2 ← writeArEntry (strBytes ("control.tar" ++ suffix)) ctl.length ctl
  let e3 ← writeArEntry (strBytes ("data.tar" ++ suffix)) data.length data
  some (arMagic ++ e1 ++ e2 ++ e3)

/-! ## Errors

Go `error` values carry formatted messages; the embedding keeps their
identity as a structured inductive, one constructor per `fmt.Errorf` site
(the `field` strings reproduce the field names used in the messages,
including the source's copy-paste quirk of saying `version:` in the
arch/section/priority messages). -/

inductive Err where
  | missingField (field : String)
  | invalidField (field : String) (value : String)
  | dirOnlyName (value : String)
  | pathTrailingSlash (value : String)
  | conflictField (field other : String)
  | unexpectedField (field : String)
  | linkNotCanonical (expected got : String)
  | statFailed (path : String)
  | openFailed (path : String)
  | fileError (index : Nat) (e : Err)
  | implicitDirInvalid (index : Nat) (dir : String)
  | dupName (index oldIndex : Nat) (name : String)
  | dirMissing (index : Nat) (dir : String)
  | wrapped (step : String) (e : Err)
deriving DecidableEq

instance {ε α : Type} [DecidableEq ε] [DecidableEq α] : DecidableEq (Except ε α) := fun a b =>
  match a, b with
  | .error e, .error f =>
    if h : e = f then isTrue (congrArg Except.error h)
    else isFalse (fun c => h (Except.error.inj c))
  | .error _, .ok _ => isFalse (fun c => Except.noConfusion c)
  | .ok _, .error _ => isFalse (fun c => Except.noConfusion c)
  | .ok a, .ok b =>
    if h : a = b then isTrue (congrArg Except.ok h)
    else isFalse (fun c => h (Except.ok.inj c))

/-! ## Typed primitives

The Go enumerations are `byte`-valued named types; the embedding uses `Nat`
with named constants, so out-of-range values exist just as in the source. -/

/-- ASCII lowercasing (Go `strings.ToLower`; the inputs this program feeds it
are ASCII, where the two agree). -/
def asciiToLower (s : String) : String :=
  ⟨s.data.map (fun c => if 'A' ≤ c ∧ c ≤ 'Z' then Char.ofNat (c.toNat + 32) else c)⟩

def hexDigitChar (n : Nat) : Char := List.getD "0123456789abcdef".data n '0'

/-- Two lowercase hex digits of a byte (Go `%02x`). -/
def hex2 (b : Nat) : String := ⟨[hexDigitChar (b % 256 / 16), hexDigitChar (b % 16)]⟩

/-- Lowercase hex of a byte string (the external `encoding/hex` library). -/
def hexEncode (bs : Bytes) : String :=
  ⟨bs.foldr (fun b acc => hexDigitChar (b % 256 / 16) :: hexDigitChar (b % 16) :: acc) []⟩

/-! ### Entry type (`type.go`) -/

def TypeAUTO : Nat := 0
def TypeDIR : Nat := 1
def TypeREG : Nat := 2
def TypeLNK : Nat := 3
def TypeFIFO : Nat := 4
def TypeCHR : Nat := 5
def TypeBLK : Nat := 6

def fileTypeNameArray : List String := ["AUTO", "DIR", "REG", "LNK", "FIFO", "CHR", "BLK"]

def fileTypeAliasMap : List (String × Nat) :=
  [("", TypeAUTO), ("auto", TypeAUTO),
   ("directory", TypeDIR), ("dir", TypeDIR), ("d", TypeDIR),
   ("regular-file", TypeREG), ("regular", TypeREG), ("reg", TypeREG), ("r", TypeREG),
   ("file", TypeREG), ("f", TypeREG), ("-", TypeREG),
   ("link", TypeLNK), ("l", TypeLNK), ("symbolic-link", TypeLNK),
   ("sym-link", TypeLNK), ("symlink", TypeLNK),
   ("fifo", TypeFIFO), ("pipe", TypeFIFO), ("p", TypeFIFO),
   ("char-device", TypeCHR), ("char-dev", TypeCHR), ("chardev", TypeCHR),
   ("char", TypeCHR), ("chr-dev", TypeCHR), ("chrdev", TypeCHR), ("chr", TypeCHR), ("c", TypeCHR),
   ("block-device", TypeBLK), ("block-dev", TypeBLK), ("blockdev", TypeBLK),
   ("block", TypeBLK), ("blk-dev", TypeBLK), ("blkdev", TypeBLK), ("blk", TypeBLK), ("b", TypeBLK)]

/-- `Type.IsValid`. -/
def typeIsValid (t : Nat) : Bool := t < 7

/-- `Type.String`. -/
def typeString (t : Nat) : String :=
  if h : t < fileTypeNameArray.length then fileTypeNameArray.get ⟨t, h⟩
  else "fileType#" ++ hex2 t

/-- `Type.Parse`: exact alias-table lookup, then lowercase lookup;
`none` models the returned parse error (the source also zeroes the value). -/
def typeParse (input : String) : Option Nat :=
  match List.lookup input fileTypeAliasMap with
  | some v => some v
  | none => List.lookup (asciiToLower input) fileTypeAliasMap

/-! ### Hash algorithm (source file of `HashAlgorithm`) -/

def HashMD5 : Nat := 0
def HashSHA1 : Nat := 1
def HashSHA256 : Nat := 2

def standardHashes : List Nat := [HashMD5, HashSHA1, HashSHA256]

def hashNameArray : List String := ["MD5", "SHA1", "SHA256"]

def hashFileNameArray : List String := ["md5sum", "sha1sum", "sha256sum"]

def hashMap : List (String × Nat) :=
  [("md5", HashMD5), ("md-5", HashMD5),
   ("sha1", HashSHA1), ("sha-1", HashSHA1),
   ("sha256", HashSHA256), ("sha-256", HashSHA256),
   ("sha2", HashSHA256), ("sha-2", HashSHA256)]

/-- `HashAlgorithm.String`. -/
def hashString (a : Nat) : String :=
  if h : a < hashNameArray.length then hashNameArray.get ⟨a, h⟩
  else "algo#" ++ hex2 a

/-- `HashAlgorithm.FileName`. -/
def hashFileName (a : Nat) : String :=
  if h : a < hashFileNameArray.length then hashFileNameArray.get ⟨a, h⟩
  else "cksum." ++ hex2 a

/-- `HashAlgorithm.Parse`. -/
def hashParse (input : String) : Option Nat :=
  match List.lookup input hashMap with
  | some v => some v
  | none => List.lookup (asciiToLower input) hashMap

/-! ### Compression algorithm (`compress.go`) -/

def CompressAuto : Nat := 0
def CompressNone : Nat := 1
def CompressGZIP : Nat := 2
def CompressBZIP2 : Nat := 3
def CompressXZ : Nat := 4
def CompressZSTD : Nat := 5

def compressNameArray : List String := ["auto", "none", "gzip", "bzip2", "xz", "zstd"]

def compressMap : List (String × Nat) :=
  [("", CompressAuto), ("auto", CompressAuto), ("none", CompressNone),
   ("gzip", CompressGZIP), ("gz", CompressGZIP),
   ("bzip2", CompressBZIP2), ("bzip", CompressBZIP2), ("bz2", CompressBZIP2),
   ("xz", CompressXZ), ("zstd", CompressZSTD)]

/-- `CompressAlgorithm.String`. -/
def compressString (a : Nat) : String :=
  if h : a < compressNameArray.length then compressNameArray.get ⟨a, h⟩
  else "compression#" ++ hex2 a

/-- `CompressAlgorithm.Parse`. -/
def compressParse (input : String) : Option Nat :=
  match List.lookup input compressMap with
  | some v => some v
  | none => List.lookup (asciiToLower input) compressMap

/-! ### Permission bits (`perm.go`) -/

def octalDigitChar (d : Nat) : Char := List.getD "01234567".data d '0'

/-- `Perm.AppendTo` / `Perm.String`: four octal digits of the low 12 bits. -/
def permString (p : Nat) : String :=
  ⟨[octalDigitChar ((p >>> 9) &&& 7), octalDigitChar ((p >>> 6) &&& 7),
    octalDigitChar ((p >>> 3) &&& 7), octalDigitChar (p &&& 7)]⟩

def digitVal (c : Char) : Nat := c.toNat - 48

/-- Go `strconv.ParseUint(input, 8, 16)` (external library): octal digits,
no sign, 16-bit range. -/
def parseOctalU16 (s : String) : Option Nat :=
  let cs := s.data
  if cs = [] then none
  else if cs.all (fun c => '0' ≤ c ∧ c ≤ '7') then
    let n := cs.foldl (fun a c => 8 * a + digitVal c) 0
    if n < 65536 then some n else none
  else none

/-- `Perm.Parse`: empty means zero, otherwise octal text masked to 12 bits
(`& 0o7777`).  `none` models the returned parse error. -/
def permParse (input : String) : Option Nat :=
  if input = "" then some 0
  else match parseOctalU16 input with
    | some n => some (n &&& 4095)
    | none => none

/-! ### Owner (source file of `Owner`) -/

def OwnerUnspecified : Nat := 0
def OwnerByID : Nat := 1
def OwnerByName : Nat := 2

/-- Go `Owner` struct: tag byte plus both payload fields. -/
structure Owner where
  otype : Nat := OwnerUnspecified
  id : Int := 0
  name : String := ""
deriving DecidableEq

/-- The `ID` constructor function. -/
def ownerID (id : Int) : Owner := { otype := OwnerByID, id := id }

/-- The `Name` constructor function. -/
def ownerName (name : String) : Owner := { otype := OwnerByName, name := name }

/-- `Owner.String`. -/
def ownerString (o : Owner) : String :=
  if o.otype = OwnerByID then "#" ++ intStr o.id
  else if o.otype = OwnerByName then o.name
  else ""

/-- Go `strconv.ParseInt(s, 10, 0)` (external library) with 64-bit `int`:
optional sign, decimal digits, 64-bit range. -/
def parseInt64 (s : String) : Option Int :=
  let cs := s.data
  let ds := if cs.head? = some '+' ∨ cs.head? = some '-' then cs.tail else cs
  if ds = [] then none
  else if ds.all Char.isDigit then
    let n := ds.foldl (fun a c => 10 * a + digitVal c) 0
    if cs.head? = some '-' then (if n ≤ 2 ^ 63 then some (-(n : Int)) else none)
    else (if n ≤ 2 ^ 63 - 1 then some (n : Int) else none)
  else none

/-- `Owner.Parse`: resets to the zero value; empty input stays unspecified;
`#` followed by a parseable integer becomes an id; everything else a name.
The Go function always returns `nil` error, hence `Except.ok` everywhere. -/
def ownerParse (input : String) : Except Err Owner :=
  if input = "" then .ok {}
  else if input.data.head? = some '#' then
    match parseInt64 ⟨input.data.tail⟩ with
    | some k => .ok (ownerID k)
    | none => .ok (ownerName input)
  else .ok (ownerName input)

/-- Follows the words of the claim about `Owner.Parse` (refinement side):
empty input yields the Unspecified owner, `#` followed by a string that
parses as a decimal integer yields ById of that integer, every other input
yields ByName of the whole input string. -/
def ownerParseSpec (input : String) : Owner :=
  if input = "" then {}
  else if input.data.head? = some '#' then
    match parseInt64 ⟨input.data.tail⟩ with
    | some k => ownerID k
    | none => ownerName input
  else ownerName input

/-- An owner name of the form `#` plus a parseable but non-canonical integer
spelling (such as `#007` or `#+5`): formatting such a ByName owner and
re-parsing yields a ById owner with a different canonical spelling. -/
def nonCanonicalIdName (n : String) : Bool :=
  if n.data.head? = some '#' then
    match parseInt64 ⟨n.data.tail⟩ with
    | some k => "#" ++ intStr k != n
    | none => false
  else false

/-! ## String, regex and path helpers (`util.go` and the `path` stdlib) -/

/-- Go `strings.TrimRight(s, "/")`. -/
def trimRightSlashes (s : String) : String := ⟨(s.data.reverse.dropWhile (· = '/')).reverse⟩

/-- Go `strings.HasSuffix(s, "/")`. -/
def endsWithSlash (s : String) : Bool := s.data.getLast? = some '/'

def isLowerAlnum (c : Char) : Bool := c.isDigit || ('a' ≤ c && c ≤ 'z')

def isAlnumCh (c : Char) : Bool := c.isDigit || c.isAlpha

/-- Longest prefix run satisfying `p`: its length and the remainder. -/
def takeRun (p : Char → Bool) : List Char → Nat × List Char
  | [] => (0, [])
  | c :: cs =>
    if p c then
      let r := takeRun p cs
      (r.1 + 1, r.2)
    else (0, c :: cs)

/-- Matches `(sep charclass+)*` to the end of input (the repeated groups of
the validation regexes; `fuel` bounds the recursion and is always called with
the input length, which suffices since every round consumes a byte). -/
def sepRunLoop (isSep : Char → Bool) (isCh : Char → Bool) : Nat → List Char → Bool
  | _, [] => true
  | 0, _ => false
  | fuel + 1, c :: cs =>
    if isSep c then
      let r := takeRun isCh cs
      if r.1 = 0 then false else sepRunLoop isSep isCh fuel r.2
    else false

/-- `packageRx`: `^[0-9a-z][0-9a-z]+(?:[.+-][0-9a-z]+)*$`. -/
def isValidPackage (s : String) : Bool :=
  let r := takeRun isLowerAlnum s.data
  if r.1 < 2 then false
  else sepRunLoop (fun c => c = '.' || c = '+' || c = '-') isLowerAlnum r.2.length r.2

/-- The mandatory part of `versionRx` after the optional epoch:
`[0-9][0-9A-Za-z]*(?:[.~+-][0-9A-Za-z]+)*$`. -/
def versionMain (l : List Char) : Bool :=
  match l with
  | [] => false
  | c :: rest =>
    if c.isDigit then
      let r := takeRun isAlnumCh rest
      sepRunLoop (fun c2 => c2 = '.' || c2 = '~' || c2 = '+' || c2 = '-') isAlnumCh r.2.length r.2
    else false

/-- `versionRx`: `^(?:[1-9][0-9]*[:])?` then `versionMain`. -/
def isValidVersion (s : String) : Bool :=
  match s.data with
  | [] => false
  | c :: rest =>
    if '1' ≤ c ∧ c ≤ '9' then
      let r := takeRun Char.isDigit rest
      match r.2 with
      | ':' :: r2 => versionMain r2
      | _ => versionMain (c :: rest)
    else versionMain (c :: rest)

/-- `archRx`: `^[0-9A-Za-z]+(?:[-][0-9A-Za-z]+)*$`. -/
def isValidArch (s : String) : Bool :=
  let r := takeRun isAlnumCh s.data
  if r.1 = 0 then false
  else sepRunLoop (fun c => c = '-') isAlnumCh r.2.length r.2

/-- `sectionRx`: lowercase alphanumeric groups separated by `/` or `-`. -/
def isValidSection (s : String) : Bool :=
  let r := takeRun isLowerAlnum s.data
  if r.1 = 0 then false
  else sepRunLoop (fun c => c = '/' || c = '-') isLowerAlnum r.2.length r.2

/-- `priorityRx`: the five literal priorities. -/
def isValidPriority (s : String) : Bool :=
  s = "required" || s = "important" || s = "standard" || s = "optional" || s = "extra"

def isValidDepends (_ : String) : Bool := true

def isValidMaintainer (_ : String) : Bool := true

def isValidURL (_ : String) : Bool := true

def isValidBuiltUsing (_ : String) : Bool := true

/-- Unicode category Cc (exactly `U+0000..U+001F` and `U+007F..U+009F`). -/
def isCcChar (c : Char) : Bool := c.toNat < 32 || (127 ≤ c.toNat && c.toNat ≤ 159)

/-- Unicode category Z (the separator code points: Zs, Zl, Zp). -/
def isZChar (c : Char) : Bool :=
  [0x20, 0xA0, 0x1680, 0x2000, 0x2001, 0x2002, 0x2003, 0x2004, 0x2005, 0x2006,
   0x2007, 0x2008, 0x2009, 0x200A, 0x2028, 0x2029, 0x202F, 0x205F, 0x3000].contains c.toNat

/-- The scan inside `isValidDescriptionLine`, tracking the trailing run of
separator characters. -/
def descLoop : List Char → Nat → Bool
  | [], spaceCount => spaceCount = 0
  | c :: cs, spaceCount =>
    if isCcChar c then false
    else descLoop cs (if isZChar c then spaceCount + 1 else 0)

/-- `isValidDescriptionLine`: no control characters, no trailing separators. -/
def isValidDescriptionLine (s : String) : Bool := descLoop s.data 0

/-- Consume one `nameComponent` separator: a single `.` or `-`, or a run of
`_`; `none` when the head is not a separator. -/
def compSepTail (cs : List Char) : Option (List Char) :=
  match cs with
  | '.' :: r => some r
  | '-' :: r => some r
  | '_' :: r => some ((takeRun (fun c => c = '_') r).2)
  | _ => none

/-- Matches `(?:(?:[.-]|_+)[0-9A-Za-z]+)*` to the end of input. -/
def compLoop : Nat → List Char → Bool
  | _, [] => true
  | 0, _ => false
  | fuel + 1, cs =>
    match compSepTail cs with
    | none => false
    | some t =>
      let r := takeRun isAlnumCh t
      if r.1 = 0 then false else compLoop fuel r.2

/-- `nameComponent`: `(?:[.-]|_+)?[0-9A-Za-z]+(?:(?:[.-]|_+)[0-9A-Za-z]+)*`. -/
def isComponent (cs : List Char) : Bool :=
  let cs1 := (compSepTail cs).getD cs
  let r := takeRun isAlnumCh cs1
  if r.1 = 0 then false else compLoop r.2.length r.2

/-- Split a character list on `/` (keeping empty pieces, like Go's
`strings.Split`). -/
def splitSlashAux : List Char → List Char → List (List Char)
  | [], acc => [acc.reverse]
  | '/' :: r, acc => acc.reverse :: splitSlashAux r []
  | c :: r, acc => splitSlashAux r (c :: acc)

/-- `nameRx`: `^(?:[.]|(?:nameComponent/)*nameComponent)/?$` — strip one
optional trailing slash, then either a lone dot or slash-separated valid
components. -/
def isValidUnixPath (s : String) : Bool :=
  let cs := s.data
  let cs1 := match cs.getLast? with
    | some '/' => cs.dropLast
    | _ => cs
  if cs1 = ['.'] then true
  else (splitSlashAux cs1 []).all (fun c => isComponent c)

/-- The element-processing stack of the external `path.Clean` stdlib
function (Lexical `..`/`.`/empty handling). -/
def pathCleanStack (rooted : Bool) : List (List Char) → List (List Char) → List (List Char)
  | [], stack => stack
  | c :: rest, stack =>
    let stack1 :=
      if c = [] ∨ c = ['.'] then stack
      else if c = ['.', '.'] then
        match stack with
        | t :: ts => if t = ['.', '.'] then c :: t :: ts else ts
        | [] => if rooted then [] else [c]
      else c :: stack
    pathCleanStack rooted rest stack1

def joinSlash : List (List Char) → List Char
  | [] => []
  | [c] => c
  | c :: rest => c ++ '/' :: joinSlash rest

/-- Go `path.Clean` (external stdlib, modelled by its documented lexical
algorithm). -/
def pathClean (s : String) : String :=
  if s = "" then "."
  else
    let cs := s.data
    let rooted := cs.head? = some '/'
    let stack := (pathCleanStack rooted (splitSlashAux cs []) []).reverse
    let body := joinSlash stack
    if rooted then ⟨'/' :: body⟩
    else if body = [] then "." else ⟨body⟩

/-- Go `path.Dir` (external stdlib): `Clean` of everything up to and
including the final slash; `.` when there is no slash. -/
def pathDir (s : String) : String :=
  let tail := s.data.reverse.dropWhile (fun c => c ≠ '/')
  if tail = [] then "."
  else pathClean ⟨tail.reverse⟩

/-! ## The File entry model (`util.go`) -/

/-- The content root: a map from path to file content, modelling the
`fs.FS` the builder reads from (`Stat` returns the length, `Open` the bytes). -/
abbrev GoFS := String → Option Bytes

/-- Go `File` struct, including its private derived state. -/
structure MFile where
  name : String := ""
  ftype : Nat := TypeAUTO
  isConf : Bool := false
  perm : Nat := 0
  user : Owner := {}
  group : Owner := {}
  mtime : Nat := 0
  major : Option Int := none
  minor : Option Int := none
  path : Option String := none
  text : Option String := none
  bytes : Option Bytes := none
  link : Option String := none
  isResolved : Bool := false
  size : Int := 0
  isHashed : Bool := false
  hashes : List (Nat × Bytes) := []
deriving DecidableEq

/-- The content-source block of `validateImpl` (regular files may have at
most one of path/text/bytes; other types none, and no `isConf`). -/
def validateContentChecks (f : MFile) : Except Err Unit :=
  if f.ftype = TypeREG then
    match f.path with
    | some p =>
      if ¬ isValidUnixPath p then .error (.invalidField "path" p)
      else if endsWithSlash p then .error (.pathTrailingSlash p)
      else if f.text.isSome then .error (.conflictField "text" "path")
      else if f.bytes.isSome then .error (.conflictField "bytes" "path")
      else .ok ()
    | none =>
      if f.text.isSome ∧ f.bytes.isSome then .error (.conflictField "bytes" "text")
      else .ok ()
  else
    if f.isConf then .error (.conflictField "isConf" "type")
    else if f.path.isSome then .error (.unexpectedField "path")
    else if f.text.isSome then .error (.unexpectedField "text")
    else if f.bytes.isSome then .error (.unexpectedField "bytes")
    else .ok ()

/-- The symlink block of `validateImpl`. -/
def validateLinkChecks (f : MFile) : Except Err Unit :=
  if f.ftype = TypeLNK then
    match f.link with
    | none => .error (.missingField "link")
    | some link =>
      let clean := pathClean link
      if link ≠ clean then .error (.linkNotCanonical clean link) else .ok ()
  else
    match f.link with
    | some _ => .error (.unexpectedField "link")
    | none => .ok ()

/-- The device block of `validateImpl` (the source's message for a missing
minor also says `major`). -/
def validateDevChecks (f : MFile) : Except Err Unit :=
  if f.ftype = TypeCHR ∨ f.ftype = TypeBLK then
    if f.major.isNone then .error (.missingField "major")
    else if f.minor.isNone then .error (.missingField "major")
    else .ok ()
  else
    if f.major.isSome then .error (.unexpectedField "major")
    else if f.minor.isSome then .error (.unexpectedField "minor")
    else .ok ()

/-- The type-fixup and name-normalization steps of `validateImpl`: an `Auto`
type becomes `Directory` (name ends in `/`) or `RegularFile`, and a
directory's name is normalized to exactly one trailing slash. -/
def fixupFile (f : MFile) : MFile :=
  let t1 := if f.ftype = TypeAUTO then (if endsWithSlash f.name then TypeDIR else TypeREG) else f.ftype
  if t1 = TypeDIR then { f with ftype := t1, name := trimRightSlashes f.name ++ "/" }
  else { f with ftype := t1 }

/-- `File.validateImpl`: structural checks, the `Auto` fixup and directory
name normalization.  The Go function mutates its receiver; the embedding
returns the updated entry. -/
def validateImpl (f : MFile) : Except Err MFile :=
  if f.name = "" then .error (.missingField "name")
  else if ¬ isValidUnixPath f.name then .error (.invalidField "name" f.name)
  else if ¬ typeIsValid f.ftype then .error (.invalidField "type" (typeString f.ftype))
  else
    let f1 := fixupFile f
    if f1.ftype ≠ TypeDIR ∧ (f1.name = "." ∨ endsWithSlash f1.name) then .error (.dirOnlyName f1.name)
    else do
      let _ ← validateContentChecks f1
      let _ ← validateLinkChecks f1
      let _ ← validateDevChecks f1
      .ok f1

/-- `File.Validate`: a value receiver, so the fixups of `validateImpl`
are computed on a copy and discarded; only the error is returned. -/
def fileValidate (f : MFile) : Except Err Unit := (validateImpl f).map (fun _ => ())

/-- Tail-recursive byte count (Go `len` / `FileInfo.Size` on the modelled
content); equal to `List.length` (`byteLen_eq`). -/
def byteLenAux : Nat → Bytes → Nat
  | n, [] => n
  | n, _ :: rest => byteLenAux (n + 1) rest

/-- Length of a byte string. -/
def byteLen (bs : Bytes) : Nat := byteLenAux 0 bs

/-- `File.Resolve`: validate (persisting the fixups — pointer receiver),
then determine the content size for regular files. -/
def fileResolve (fs : GoFS) (f : MFile) : Except Err MFile :=
  match validateImpl f with
  | .error e => .error e
  | .ok f1 =>
    if f1.ftype = TypeREG then
      match f1.bytes with
      | some bs => .ok { f1 with size := (byteLen bs : Int), isResolved := true }
      | none =>
        match f1.text with
        | some t => .ok { f1 with size := (byteLen (strBytes t) : Int), isResolved := true }
        | none =>
          let statPath := f1.path.getD f1.name
          match fs statPath with
          | some content => .ok { f1 with size := (byteLen content : Int), isResolved := true }
          | none => .error (.statFailed statPath)
    else .ok { f1 with size := 0, isResolved := true }

/-- `File.Reader`: panics (`none`) when unresolved, an empty stream for
non-regular entries, otherwise the embedded or opened content. -/
def readerOf (fs : GoFS) (f : MFile) : Option (Except Err Bytes) :=
  if ¬ f.isResolved then none
  else if f.ftype ≠ TypeREG then some (.ok [])
  else
    match f.bytes with
    | some bs => some (.ok bs)
    | none =>
      match f.text with
      | some t => some (.ok (strBytes t))
      | none =>
        let nm := f.path.getD f.name
        match fs nm with
        | some content => some (.ok content)
        | none => some (.error (.openFailed nm))

/-- `pad`: `(size + x) &^ x` on `uint64`, where `x = 1<<shift - 1`
(the addition wraps at `2^64`; clearing the low bits is subtracting the
remainder). -/
def pad (size : Nat) (shift : Nat) : Nat :=
  let x := (1 <<< shift) - 1
  let s := (size + x) % (2 ^ 64)
  s - s % (1 <<< shift)

/-- `padSigned`: strips the sign, pads, and fails fatally (`none`) when the
result does not fit back into a non-negative `int64`. -/
def padSigned (size : Int) (shift : Nat) : Option Int :=
  let neg := size < 0
  let result := pad size.natAbs shift
  if 2 ^ 63 ≤ result then none
  else some (if neg then -(result : Int) else (result : Int))

/-! ## The Manifest model (`manifest.go`) -/

/-- Go `Manifest` struct, including its private derived state
(`sect` is the `Section` field; `section` is a Lean keyword). -/
structure Manifest where
  package : String := ""
  version : String := ""
  arch : String := ""
  sect : String := ""
  priority : String := ""
  essential : String := ""
  depends : String := ""
  preDepends : String := ""
  recommends : String := ""
  suggests : String := ""
  enhances : String := ""
  breaks : String := ""
  conflicts : String := ""
  maintainer : String := ""
  homePage : String := ""
  builtUsing : String := ""
  shortDescription : String := ""
  longDescription : List String := []
  implicitDirs : List String := []
  files : List MFile := []
  preInstall : List String := []
  postInstall : List String := []
  preRemove : List String := []
  postRemove : List String := []
  isResolved : Bool := false
  installedSize : Int := 0
  isHashed : Bool := false
deriving DecidableEq

/-- The `longDescription` loop at the end of `validatePre`. -/
def checkLongDescription : List String → Nat → Except Err Unit
  | [], _ => .ok ()
  | line :: rest, idx =>
    if ¬ isValidDescriptionLine line then .error (.invalidField "longDescription" line)
    else checkLongDescription rest (idx + 1)

/-- `Manifest.validatePre`: the metadata-only validation pass.  (Several of
the source's error messages name the field `version` even for arch, section
and priority; the embedding mirrors that in the error payloads.) -/
def validatePre (m : Manifest) : Except Err Unit :=
  if m.package = "" then .error (.missingField "package")
  else if ¬ isValidPackage m.package then .error (.invalidField "package" m.package)
  else if m.version = "" then .error (.missingField "version")
  else if ¬ isValidVersion m.version then .error (.invalidField "version" m.version)
  else if m.arch = "" then .error (.missingField "arch")
  else if ¬ isValidArch m.arch then .error (.invalidField "version" m.arch)
  else if m.sect ≠ "" ∧ ¬ isValidSection m.sect then .error (.invalidField "version" m.sect)
  else if m.priority ≠ "" ∧ ¬ isValidPriority m.priority then .error (.invalidField "version" m.priority)
  else if m.essential ≠ "" ∧ ¬ isValidDepends m.essential then .error (.invalidField "essential" m.essential)
  else if m.depends ≠ "" ∧ ¬ isValidDepends m.depends then .error (.invalidField "depends" m.depends)
  else if m.preDepends ≠ "" ∧ ¬ isValidDepends m.preDepends then .error (.invalidField "preDepends" m.preDepends)
  else if m.recommends ≠ "" ∧ ¬ isValidDepends m.recommends then .error (.invalidField "recommends" m.recommends)
  else if m.suggests ≠ "" ∧ ¬ isValidDepends m.suggests then .error (.invalidField "suggests" m.suggests)
  else if m.enhances ≠ "" ∧ ¬ isValidDepends m.enhances then .error (.invalidField "enhances" m.enhances)
  else if m.breaks ≠ "" ∧ ¬ isValidDepends m.breaks then .error (.invalidField "breaks" m.breaks)
  else if m.conflicts ≠ "" ∧ ¬ isValidDepends m.conflicts then .error (.invalidField "conflicts" m.conflicts)
  else if m.maintainer = "" then .error (.missingField "maintainer")
  else if ¬ isValidMaintainer m.maintainer then .error (.invalidField "maintainer" m.maintainer)
  else if m.homePage ≠ "" ∧ ¬ isValidURL m.homePage then .error (.invalidField "homePage" m.homePage)
  else if m.builtUsing ≠ "" ∧ ¬ isValidBuiltUsing m.builtUsing then .error (.invalidField "builtUsing" m.builtUsing)
  else if m.shortDescription = "" then .error (.missingField "shortDescription")
  else if ¬ isValidDescriptionLine m.shortDescription then .error (.invalidField "shortDescription" m.shortDescription)
  else checkLongDescription m.longDescription 0

/-- The `implicitDirs` loop of `validatePost`: validate each path and
collect the trailing-slash-trimmed directory names. -/
def checkImplicitDirs : List String → Nat → Except Err (List String)
  | [], _ => .ok []
  | d :: rest, idx =>
    if ¬ isValidUnixPath d then .error (.implicitDirInvalid idx d)
    else
      match checkImplicitDirs rest (idx + 1) with
      | .error e => .error e
      | .ok ds => .ok (trimRightSlashes d :: ds)

/-- The per-file loop of `validatePost`: duplicate-name detection (`seen`)
and the directory-closure check (`known`). -/
def postLoop : List MFile → Nat → List (String × Nat) → List String → Except Err Unit
  | [], _, _, _ => .ok ()
  | f :: rest, idx, seen, known =>
    match List.lookup f.name seen with
    | some old => .error (.dupName idx old f.name)
    | none =>
      let seen1 := (f.name, idx) :: seen
      let nm := trimRightSlashes f.name
      let dir := pathDir nm
      if known.contains dir then
        postLoop rest (idx + 1) seen1 (if f.ftype = TypeDIR then nm :: known else known)
      else .error (.dirMissing idx dir)

/-- `Manifest.validatePost`: the cross-entry validation pass.
`knownDirectories` starts as `{"."}` plus the trimmed `implicitDirs`. -/
def validatePost (m : Manifest) : Except Err Unit :=
  match checkImplicitDirs m.implicitDirs 0 with
  | .error e => .error e
  | .ok ds => postLoop m.files 0 [] ("." :: ds)

/-- The per-file loop of `Manifest.Validate`.  The Go loop ranges over
copies with a value-receiver `Validate`, so only the errors escape. -/
def checkFilesLoop : List MFile → Nat → Except Err Unit
  | [], _ => .ok ()
  | f :: rest, idx =>
    match fileValidate f with
    | .error e => .error (.fileError idx e)
    | .ok _ => checkFilesLoop rest (idx + 1)

/-- `Manifest.Validate` (value receiver: the manifest is left unchanged,
so the `Auto` fixups computed inside the loop are discarded). -/
def mValidate (m : Manifest) : Except Err Unit :=
  match validatePre m with
  | .error e => .error e
  | .ok _ =>
    match checkFilesLoop m.files 0 with
    | .error e => .error e
    | .ok _ => validatePost m

/-- The per-file loop of `Manifest.Resolve`: resolve each entry in place
and accumulate `padSigned(size, 12)`.  `none` models a `padSigned` panic. -/
def resolveFiles (fs : GoFS) : List MFile → Nat → Option (Except Err (List MFile × Int))
  | [], _ => some (.ok ([], 0))
  | f :: rest, idx =>
    match fileResolve fs f with
    | .error e => some (.error (.fileError idx e))
    | .ok f1 =>
      match padSigned f1.size 12 with
      | none => none
      | some p =>
        match resolveFiles fs rest (idx + 1) with
        | none => none
        | some (.error e) => some (.error e)
        | some (.ok (rest1, total)) => some (.ok (f1 :: rest1, p + total))

/-- `Manifest.Resolve` (pointer receiver): pre-pass, per-entry resolution
(mutating the files), post-pass, then the installed size and the resolved
flag are recorded. -/
def mResolve (fs : GoFS) (m : Manifest) : Option (Except Err Manifest) :=
  match validatePre m with
  | .error e => some (.error e)
  | .ok _ =>
    match resolveFiles fs m.files 0 with
    | none => none
    | some (.error e) => some (.error e)
    | some (.ok (files1, total)) =>
      let m1 := { m with files := files1 }
      match validatePost m1 with
      | .error e => some (.error e)
      | .ok _ => some (.ok { m1 with installedSize := total, isResolved := true })

/-! ### Rendering methods (all gate on `isResolved`; `none` = panic) -/

/-- The text assembled by `Manifest.ControlFile`. -/
def controlText (m : Manifest) : String :=
  "Package: " ++ m.package ++ "\n"
  ++ "Version: " ++ m.version ++ "\n"
  ++ (if m.sect ≠ "" then "Section: " ++ m.sect ++ "\n" else "")
  ++ (if m.priority ≠ "" then "Priority: " ++ m.priority ++ "\n" else "")
  ++ (if m.arch ≠ "" then "Architecture: " ++ m.arch ++ "\n" else "")
  ++ (if m.essential ≠ "" then "Essential: " ++ m.essential ++ "\n" else "")
  ++ (if m.depends ≠ "" then "Depends: " ++ m.depends ++ "\n" else "")
  ++ (if m.preDepends ≠ "" then "Pre-Depends: " ++ m.preDepends ++ "\n" else "")
  ++ (if m.recommends ≠ "" then "Recommends: " ++ m.recommends ++ "\n" else "")
  ++ (if m.suggests ≠ "" then "Suggests: " ++ m.suggests ++ "\n" else "")
  ++ (if m.enhances ≠ "" then "Enhances: " ++ m.enhances ++ "\n" else "")
  ++ (if m.breaks ≠ "" then "Breaks: " ++ m.breaks ++ "\n" else "")
  ++ (if m.conflicts ≠ "" then "Conflicts: " ++ m.conflicts ++ "\n" else "")
  ++ "Installed-Size: " ++ intStr m.installedSize ++ "\n"
  ++ "Maintainer: " ++ m.maintainer ++ "\n"
  ++ (if m.homePage ≠ "" then "Homepage: " ++ m.homePage ++ "\n" else "")
  ++ (if m.builtUsing ≠ "" then "Built-Using: " ++ m.builtUsing ++ "\n" else "")
  ++ "Description: " ++ m.shortDescription ++ "\n"
  ++ (m.longDescription.map (fun line => if line = "" then " .\n" else " " ++ line ++ "\n")).foldr (· ++ ·) ""

/-- `Manifest.ControlFile` (always writes, so the result is never a Go
`nil` slice). -/
def mControlFile (m : Manifest) : Option Bytes :=
  if ¬ m.isResolved then none else some (strBytes (controlText m))

/-- `Manifest.ConfFiles`: the inner `Option` is Go slice nil-ness — the
untouched buffer of a manifest without `isConf` entries yields `nil`. -/
def mConfFiles (m : Manifest) : Option (Option Bytes) :=
  if ¬ m.isResolved then none
  else
    let confs := m.files.filter (fun f => f.isConf)
    if confs = [] then some none
    else some (some (strBytes ((confs.map (fun f => f.name ++ "\n")).foldr (· ++ ·) "")))

/-- The fixed preamble plus caller lines, shared by the four maintainer
script renderers. -/
def scriptText (lines : List String) : String :=
  "#!/bin/bash\n" ++ "set -euo pipefail\n" ++ "umask 022\n" ++ "cd /\n"
  ++ (lines.map (fun line => line ++ "\n")).foldr (· ++ ·) ""

/-- A script body: Go `nil` when the line list is empty. -/
def scriptBytes (lines : List String) : Option Bytes :=
  if lines = [] then none else some (strBytes (scriptText lines))

/-- `Manifest.PreInstallScript`. -/
def mPreInstallScript (m : Manifest) : Option (Option Bytes) :=
  if ¬ m.isResolved then none else some (scriptBytes m.preInstall)

/-- `Manifest.PostInstallScript`. -/
def mPostInstallScript (m : Manifest) : Option (Option Bytes) :=
  if ¬ m.isResolved then none else some (scriptBytes m.postInstall)

/-- `Manifest.PreRemoveScript`. -/
def mPreRemoveScript (m : Manifest) : Option (Option Bytes) :=
  if ¬ m.isResolved then none else some (scriptBytes m.preRemove)

/-- `Manifest.PostRemoveScript`. -/
def mPostRemoveScript (m : Manifest) : Option (Option Bytes) :=
  if ¬ m.isResolved then none else some (scriptBytes m.postRemove)

/-! ## Tar headers and the unixMode constants -/

/-- Modelled from the spec: the `unixModeFMT`/`unixModeDIR`/... constants are
defined in a repository source file that is not present under `src/` (they
are referenced by `File.AsTarHeader` and `writeControlFile`).  The spec
describes control members as "mode 0755 (mode 0644 + executable bits)" over
a regular-file header, so the constants are modelled as the standard Unix
`S_IFMT` file-type mode bits. -/
def unixModeFMT : Nat := 0o170000

/-- Modelled from the spec: see `unixModeFMT`. -/
def unixModeDIR : Nat := 0o040000

/-- Modelled from the spec: see `unixModeFMT`. -/
def unixModeREG : Nat := 0o100000

/-- Modelled from the spec: see `unixModeFMT`. -/
def unixModeLNK : Nat := 0o120000

/-- Modelled from the spec: see `unixModeFMT`. -/
def unixModeFIFO : Nat := 0o010000

/-- Modelled from the spec: see `unixModeFMT`. -/
def unixModeCHR : Nat := 0o020000

/-- Modelled from the spec: see `unixModeFMT`. -/
def unixModeBLK : Nat := 0o060000

/-- The `archive/tar` type flag bytes (external stdlib constants). -/
def tarTypeReg : Nat := 48

def tarTypeDir : Nat := 53

def tarTypeSymlink : Nat := 50

def tarTypeFifo : Nat := 54

def tarTypeChar : Nat := 51

def tarTypeBlock : Nat := 52

/-- The fields of `tar.Header` that this program sets (all PAX format). -/
structure TarHeader where
  typeflag : Nat := 0
  name : String := ""
  linkname : String := ""
  mode : Nat := 0
  uid : Int := 0
  gid : Int := 0
  uname : String := ""
  gname : String := ""
  size : Int := 0
  mtime : Nat := 0
  devmajor : Int := 0
  devminor : Int := 0
deriving DecidableEq

/-- One record handed to the external tar encoder: a header plus the
content bytes streamed after it (empty for non-regular entries). -/
structure TarEntry where
  hdr : TarHeader
  content : Bytes := []
deriving DecidableEq

/-- `File.AsTarHeader`: deterministic mapping from an entry to a tar header.
`none` models the panics: the unresolved-entry assertion and the nil
dereferences of `Link`/`Major`/`Minor` (unreachable for validated files). -/
def asTarHeader (f : MFile) : Option TarHeader :=
  if ¬ f.isResolved then none
  else
    let base : TarHeader :=
      { typeflag := 0, name := f.name, mode := unixModeFMT, mtime := f.mtime, size := f.size,
        uid := if f.user.otype = OwnerByID then f.user.id else 0,
        uname := if f.user.otype = OwnerByName then f.user.name else "",
        gid := if f.group.otype = OwnerByID then f.group.id else 0,
        gname := if f.group.otype = OwnerByName then f.group.name else "" }
    let withType : Option (Nat × TarHeader) :=
      if f.ftype = TypeDIR then some (0o755, { base with typeflag := tarTypeDir, mode := unixModeDIR })
      else if f.ftype = TypeREG then some (0o644, { base with typeflag := tarTypeReg, mode := unixModeREG })
      else if f.ftype = TypeLNK then
        match f.link with
        | some l => some (0o777, { base with typeflag := tarTypeSymlink, mode := unixModeLNK, linkname := l })
        | none => none
      else if f.ftype = TypeFIFO then some (0o600, { base with typeflag := tarTypeFifo, mode := unixModeFIFO })
      else if f.ftype = TypeCHR then
        match f.major, f.minor with
        | some ma, some mi => some (0o600, { base with typeflag := tarTypeChar, mode := unixModeCHR, devmajor := ma, devminor := mi })
        | _, _ => none
      else if f.ftype = TypeBLK then
        match f.major, f.minor with
        | some ma, some mi => some (0o600, { base with typeflag := tarTypeBlock, mode := unixModeBLK, devmajor := ma, devminor := mi })
        | _, _ => none
      else some (0o600, base)
    match withType with
    | none => none
    | some (defaultPerm, hdr) =>
      let perm := if f.perm = 0 then defaultPerm else f.perm
      some { hdr with mode := hdr.mode ||| perm }

/-! ## The build pipeline (`Builder`) -/

/-- Go `Builder`.  `zeroTime` is Unix seconds with `0` as the Go zero time;
`hashes` keeps the source's nil/non-nil distinction. -/
structure Builder where
  root : GoFS
  zeroTime : Nat := 0
  compression : Nat := CompressAuto
  hashes : Option (List Nat) := none

/-- `Builder.fillDefaults`: zero time `2020-01-01T00:00:00Z` (Unix
`1577836800`), `Auto` compression resolves to gzip, nil hashes become the
standard three. -/
def fillDefaults (b : Builder) : Builder :=
  { b with
    zeroTime := if b.zeroTime = 0 then 1577836800 else b.zeroTime,
    compression := if b.compression = CompressAuto then CompressGZIP else b.compression,
    hashes := some (b.hashes.getD standardHashes) }

/-- `CompressAlgorithm.NewWriter` dispatch: `None` is a pass-through,
gzip/xz/zstd use the external codec (the opaque `cEnc`), and every other
value — including `Bzip2`, which has no case in the source — panics. -/
def newWriterOK (cEnc : Nat → Bytes → Bytes) (algo : Nat) : Option (Bytes → Bytes) :=
  if algo = CompressNone then some (fun bs => bs)
  else if algo = CompressGZIP ∨ algo = CompressXZ ∨ algo = CompressZSTD then some (cEnc algo)
  else none

/-- The per-entry loop of `BuildDataTarball`: reset the per-file hash state,
write the header (zero mod-times replaced by the builder zero time), and for
regular files stream the content through the hash fan-out and record one
digest per configured algorithm. -/
def dataLoop (hashFn : Nat → Bytes → Bytes) (fs : GoFS) (zt : Nat) (algos : List Nat) :
    List MFile → Nat → Option (Except Err (List TarEntry × List MFile))
  | [], _ => some (.ok ([], []))
  | f :: rest, idx =>
    let f0 := { f with isHashed := false, hashes := [] }
    match asTarHeader f0 with
    | none => none
    | some hdr0 =>
      let hdr := if hdr0.mtime = 0 then { hdr0 with mtime := zt } else hdr0
      let step : Option (Except Err (TarEntry × MFile)) :=
        if f0.ftype = TypeREG then
          match readerOf fs f0 with
          | none => none
          | some (.error e) => some (.error (.fileError idx e))
          | some (.ok content) =>
            some (.ok ({ hdr := hdr, content := content },
              { f0 with hashes := algos.map (fun a => (a, hashFn a content)), isHashed := true }))
        else some (.ok ({ hdr := hdr, content := [] }, f0))
      match step with
      | none => none
      | some (.error e) => some (.error e)
      | some (.ok (ent, f1)) =>
        match dataLoop hashFn fs zt algos rest (idx + 1) with
        | none => none
        | some (.error e) => some (.error e)
        | some (.ok (ents, rest1)) => some (.ok (ent :: ents, f1 :: rest1))

/-- `Builder.BuildDataTarball`: asserts resolution, fills defaults, opens
the compressing writer, runs the entry loop, and marks the manifest hashed.
`tarEnc` and `cEnc` are the external tar encoder and compression codecs. -/
def buildDataTarball (tarEnc : List TarEntry → Bytes) (cEnc : Nat → Bytes → Bytes)
    (hashFn : Nat → Bytes → Bytes) (b : Builder) (m : Manifest) :
    Option (Except Err (Bytes × Manifest)) :=
  if ¬ m.isResolved then none
  else
    let b1 := fillDefaults b
    match newWriterOK cEnc b1.compression with
    | none => none
    | some comp =>
      match dataLoop hashFn b1.root b1.zeroTime (b1.hashes.getD []) m.files 0 with
      | none => none
      | some (.error e) => some (.error e)
      | some (.ok (ents, files1)) =>
        some (.ok (comp (tarEnc ents), { m with files := files1, isHashed := true }))

/-- Digest lookup in a file's recorded hash map (`file.hashes[algo]`; a
missing key is Go's nil slice, which hex-encodes to the empty string). -/
def lookupHash (hs : List (Nat × Bytes)) (a : Nat) : Bytes :=
  (List.lookup a hs).getD []

/-- The checksum text accumulated per algorithm by `BuildControlTarball`:
one `<hex digest>  <name>\n` line for every hashed (= regular) file, in
manifest order.  The buffer is pre-grown, so it is never a nil slice. -/
def checksumBytes (algo : Nat) (files : List MFile) : Bytes :=
  files.foldr
    (fun f acc =>
      if f.isHashed then
        strBytes (hexEncode (lookupHash f.hashes algo)) ++ strBytes "  "
          ++ strBytes f.name ++ strBytes "\n" ++ acc
      else acc) []

/-- `Builder.writeControlFile` as a tar entry: skipped entirely for a Go
nil slice, mode `unixModeREG | 0644` plus `0111` when executable. -/
def writeControlEntry (zt : Nat) (name : String) (isExec : Bool) (data : Option Bytes) : List TarEntry :=
  match data with
  | none => []
  | some d =>
    [{ hdr := { typeflag := tarTypeReg, name := name,
                mode := unixModeREG ||| 0o644 ||| (if isExec then 0o111 else 0),
                size := (d.length : Int), mtime := zt },
       content := d }]

/-- The sequence of control-partition members written by
`BuildControlTarball`, in source order: `control`, one checksum file per
configured algorithm, `conffiles`, then the four maintainer scripts.
`none` models the panics of the rendering methods (unreachable behind the
builder's own gates). -/
def controlEntries (b : Builder) (m : Manifest) : Option (List TarEntry) := do
  let ctl ← mControlFile m
  let cf ← mConfFiles m
  let s1 ← mPreInstallScript m
  let s2 ← mPostInstallScript m
  let s3 ← mPreRemoveScript m
  let s4 ← mPostRemoveScript m
  let algos := b.hashes.getD []
  some (writeControlEntry b.zeroTime "control" false (some ctl)
    ++ (algos.map (fun a => writeControlEntry b.zeroTime (hashFileName a) false (some (checksumBytes a m.files)))).flatten
    ++ writeControlEntry b.zeroTime "conffiles" false cf
    ++ writeControlEntry b.zeroTime "preinst" true s1
    ++ writeControlEntry b.zeroTime "postinst" true s2
    ++ writeControlEntry b.zeroTime "prerm" true s3
    ++ writeControlEntry b.zeroTime "postrm" true s4)

/-- `Builder.BuildControlTarball`: asserts resolution and data-hashing
(`none` = panic), fills defaults, opens the compressing writer and writes
the control members. -/
def buildControlTarball (tarEnc : List TarEntry → Bytes) (cEnc : Nat → Bytes → Bytes)
    (b : Builder) (m : Manifest) : Option (Except Err Bytes) :=
  if ¬ m.isResolved then none
  else if ¬ m.isHashed then none
  else
    let b1 := fillDefaults b
    match newWriterOK cEnc b1.compression with
    | none => none
    | some comp =>
      match controlEntries b1 m with
      | none => none
      | some es => some (.ok (comp (tarEnc es)))

/-- `Builder.Build`: fill defaults, resolve against the builder root, build
the data partition, then the control partition, then assemble the ar
container (control before data, after the `debian-binary` marker).  The
temporary-file plumbing is I/O external to the model; the partition sizes
equal the sealed streams' lengths. -/
def build (tarEnc : List TarEntry → Bytes) (cEnc : Nat → Bytes → Bytes)
    (hashFn : Nat → Bytes → Bytes) (b : Builder) (m : Manifest) :
    Option (Except Err (Bytes × Manifest)) :=
  let b1 := fillDefaults b
  match mResolve b1.root m with
  | none => none
  | some (.error e) => some (.error e)
  | some (.ok m1) =>
    match buildDataTarball tarEnc cEnc hashFn b1 m1 with
    | none => none
    | some (.error e) => some (.error (.wrapped "data" e))
    | some (.ok (dataBytes, m2)) =>
      match buildControlTarball tarEnc cEnc b1 m2 with
      | none => none
      | some (.error e) => some (.error (.wrapped "control" e))
      | some (.ok ctlBytes) =>
        match writeArFile (compressSuffix b1.compression) ctlBytes dataBytes with
        | none => none
        | some out => some (.ok (out, m2))

/-! ## Concrete instances used to evaluate the theorems

Opaque collaborators get simple executable stand-ins; the manifests are the
spec's minimal end-to-end example and small variations of it. -/

/-- A stand-in tar encoder (the theorems never depend on its output). -/
def demoTar : List TarEntry → Bytes := fun es => [es.length % 256]

/-- A stand-in compression codec. -/
def demoCmp : Nat → Bytes → Bytes := fun _ bs => bs

/-- A stand-in hash family: digest = algorithm tag plus content length. -/
def demoHash : Nat → Bytes → Bytes := fun a c => [a, c.length % 256]

/-- An empty content root (the demo manifests embed their content). -/
def demoFS : GoFS := fun _ => none

def demoB : Builder := { root := demoFS }

/-- The spec's minimal end-to-end manifest. -/
def demoM : Manifest :=
  { package := "foo", version := "1.0", arch := "amd64",
    maintainer := "A <a@example.com>", shortDescription := "x",
    files := [{ name := "hello.txt", text := some "hi\n" }] }

/-- `demoM` after `Resolve`. -/
def demoM1 : Manifest :=
  match mResolve demoFS demoM with
  | some (.ok m1) => m1
  | _ => demoM

def demoBuild : Option (Except Err (Bytes × Manifest)) :=
  build demoTar demoCmp demoHash demoB demoM

/-- The container bytes produced by the demo build. -/
def demoOut : Bytes :=
  match demoBuild with
  | some (.ok (out, _)) => out
  | _ => []

/-- The manifest state after the demo build. -/
def demoM2 : Manifest :=
  match demoBuild with
  | some (.ok (_, m2)) => m2
  | _ => demoM

/-- Data-partition build on the resolved demo manifest. -/
def demoData : Option (Except Err (Bytes × Manifest)) :=
  buildDataTarball demoTar demoCmp demoHash demoB demoM1

/-- A manifest whose entry references a directory declared only later. -/
def demoLateM : Manifest :=
  { demoM with files := [{ name := "a/b.txt" }, { name := "a/", ftype := TypeDIR }] }

/-- The same two entries with the directory declared first. -/
def demoEarlyM : Manifest :=
  { demoM with files := [{ name := "a/", ftype := TypeDIR }, { name := "a/b.txt" }] }

/-- A manifest with one `Auto`-typed entry (the default type). -/
def demoAutoM : Manifest :=
  { demoM with files := [{ name := "auto.txt", text := some "t\n" }] }

/-- `demoAutoM` after `Resolve`. -/
def demoAutoM1 : Manifest :=
  match mResolve demoFS demoAutoM with
  | some (.ok m1) => m1
  | _ => demoAutoM

/-- A manifest with two entries sharing a name. -/
def demoDupM : Manifest :=
  { demoM with files := [{ name := "a.txt" }, { name := "a.txt" }] }

/-- A manifest exercising a conffile and a maintainer script. -/
def demoConfM : Manifest :=
  { demoM with
    files := [{ name := "app.conf", text := some "k=v\n", isConf := true }],
    preInstall := ["echo pre"] }

/-- `demoConfM` after `Resolve`. -/
def demoConfM1 : Manifest :=
  match mResolve demoFS demoConfM with
  | some (.ok m1) => m1
  | _ => demoConfM

/-- `demoConfM` after `Resolve` and the data-partition build. -/
def demoConfM2 : Manifest :=
  match buildDataTarball demoTar demoCmp demoHash demoB demoConfM1 with
  | some (.ok (_, m2)) => m2
  | _ => demoConfM

/-- The content bytes `File.Reader` yields for a regular entry, computed
directly from the entry and the content root (the independent recomputation
used to check the emitted digests). -/
def specContent (fs : GoFS) (f : MFile) : Bytes :=
  match f.bytes with
  | some bs => bs
  | none =>
    match f.text with
    | some t => strBytes t
    | none => (fs (f.path.getD f.name)).getD []

/-- The checksum text the spec demands for one algorithm: one
`<lowercase hex digest><two spaces><name>\n` line per regular-file entry in
manifest order, digests recomputed independently from the entry contents. -/
def specChecksumText (hashFn : Nat → Bytes → Bytes) (fs : GoFS) (algo : Nat)
    (files : List MFile) : Bytes :=
  (files.filter (fun f => f.ftype = TypeREG)).foldr
    (fun f acc =>
      strBytes (hexEncode (hashFn algo (specContent fs f))) ++ strBytes "  "
        ++ strBytes f.name ++ strBytes "\n" ++ acc) []

/-- The tar entry of a present maintainer script, as the spec describes it:
preamble plus caller lines, mode 0644 with executable bits. -/
def scriptEntryOf (zt : Nat) (name : String) (lines : List String) : TarEntry :=
  { hdr := { typeflag := tarTypeReg, name := name,
             mode := unixModeREG ||| 0o644 ||| 0o111,
             size := ((strBytes (scriptText lines)).length : Int), mtime := zt },
    content := strBytes (scriptText lines) }

/-- The data-partition bytes of the demo build. -/
def demoDataBytes : Bytes :=
  match demoData with
  | some (.ok (db, _)) => db
  | _ => []

/-- The manifest state after the demo data-partition build. -/
def demoDataM2 : Manifest :=
  match demoData with
  | some (.ok (_, m2)) => m2
  | _ => demoM1

/-- The control members of the conffile-and-script demo after its
data-partition build. -/
def demoConfEntries : List TarEntry :=
  (controlEntries (fillDefaults demoB) demoConfM2).getD []

/-! ## Supporting lemmas -/

theorem listFill_length (l v : Bytes) (s : Nat) (h : s + v.length ≤ l.length) :
    (listFill l s v).length = l.length := by
  simp only [listFill, List.length_append, List.length_take, List.length_drop]
  omega

theorem arNameField_length (name : Bytes) (h : name.length ≤ 16) :
    (arNameField name).length = 16 := by
  simp only [arNameField, List.length_append, List.length_take, List.length_replicate]
  omega

theorem decBytesAux_length_le :
    ∀ fuel n k, n < fuel → n < 10 ^ k → 1 ≤ k → (decBytesAux fuel n).length ≤ k := by
  intro fuel
  induction fuel with
  | zero => intro n k h; omega
  | succ fuel ih =>
    intro n k hf hk h1
    by_cases h10 : n < 10
    · simp [decBytesAux, h10]; omega
    · have hk2 : 2 ≤ k := by
        by_contra hc
        have : k = 1 := by omega
        subst this
        simp at hk
        omega
      have hdiv : n / 10 < fuel := by
        have := Nat.div_lt_self (by omega : 0 < n) (by omega : 1 < 10)
        omega
      have hpow : n / 10 < 10 ^ (k - 1) := by
        rw [Nat.div_lt_iff_lt_mul (by omega : 0 < 10)]
        calc n < 10 ^ k := hk
          _ = 10 ^ (k - 1) * 10 := by
            rw [← Nat.pow_succ]
            congr 1
            omega
      have := ih (n / 10) (k - 1) hdiv hpow (by omega)
      simp [decBytesAux, h10]
      omega

/-! ## Claim C2 -/

/-- C2 (counterexample): for size `10^10` the decimal form needs 11 bytes,
so the encoder hits its fatal size-field check instead of emitting a
header — refuting the claim's "every non-negative size". -/
theorem c2_counterexample : writeArEntry (strBytes "x") 10000000000 [] = none := by decide

/-- C2 (amended): for every name of at most 16 bytes and every size whose
decimal form fits the 10-byte field (size < 10^10), `writeArEntry` emits a
60-byte header whose first 16 bytes are the name left-justified and
space-padded and whose bytes 48..57 are the size in left-justified decimal,
followed by the raw content, followed by one `\n` pad byte iff the size is
odd; a name longer than 16 bytes is a fatal error (panic), never a returned
error. -/
theorem c2_ar_entry_encoding :
    (∀ (name : Bytes) (size : Nat) (content : Bytes),
        name.length ≤ 16 → size < 10000000000 →
        ∃ hdr : Bytes,
          writeArEntry name size content =
            some (hdr ++ content ++ (if size % 2 = 1 then [10] else []))
          ∧ hdr.length = 60
          ∧ hdr.take 16 = name ++ List.replicate (16 - name.length) 32
          ∧ (hdr.drop 48).take 10 =
              decBytes size ++ List.replicate (10 - (decBytes size).length) 32)
    ∧ (∀ (name : Bytes) (size : Nat) (content : Bytes),
        16 < name.length → writeArEntry name size content = none) := by
  constructor
  · intro name size content hn hs
    have hdlen : (decBytes size).length ≤ 10 := by
      refine decBytesAux_length_le (size + 1) size 10 (by omega) ?_ (by omega)
      norm_num
      omega
    have hbase : arHdrBase.length = 60 := by decide
    have hnf : (arNameField name).length = 16 := arNameField_length name hn
    set sf : Bytes := decBytes size ++ List.replicate (10 - (decBytes size).length) 32 with hsfdef
    have hsf : sf.length = 10 := by
      simp only [hsfdef, List.length_append, List.length_replicate]
      omega
    set inner : Bytes := listFill arHdrBase 0 (arNameField name) with hinnerdef
    have hinnereq : inner = arNameField name ++ arHdrBase.drop 16 := by
      simp only [hinnerdef, listFill, List.take_zero, List.nil_append, Nat.zero_add, hnf]
    have hinner : inner.length = 60 := by
      rw [hinnereq]
      simp only [List.length_append, List.length_drop, hbase, hnf]
    have htk48 : (inner.take 48).length = 48 := by
      simp only [List.length_take]
      omega
    refine ⟨listFill inner 48 sf, ?_, ?_, ?_, ?_⟩
    · have hlen10 : (decBytes size ++ List.replicate (10 - (decBytes size).length) 32).length = 10 := by
        simp only [List.length_append, List.length_replicate]
        omega
      simp only [writeArEntry, hlen10]
      rw [if_neg (by omega : ¬ 16 < name.length), if_neg (by omega : ¬ (10 : Nat) ≠ 10),
        ← hsfdef, ← hinnerdef]
    · rw [listFill_length] <;> omega
    · have houter : listFill inner 48 sf = inner.take 48 ++ (sf ++ inner.drop (48 + sf.length)) := by
        simp only [listFill, List.append_assoc]
      rw [houter, List.take_append_of_le_length (by omega), List.take_take,
        (by omega : min 16 48 = 16), hinnereq,
        List.take_append_of_le_length (by omega), List.take_of_length_le (le_of_eq hnf),
        arNameField, List.take_of_length_le hn]
    · have houter : listFill inner 48 sf = inner.take 48 ++ (sf ++ inner.drop (48 + sf.length)) := by
        simp only [listFill, List.append_assoc]
      rw [houter, List.drop_append_of_le_length (by omega)]
      simp only [List.drop_eq_nil_of_le (le_of_eq htk48), List.nil_append]
      rw [List.take_append_of_le_length (by omega), List.take_of_length_le (le_of_eq hsf)]
  · intro name size content h
    simp only [writeArEntry]
    rw [if_pos h]

/-- C2 (witness): the spec's container-bytes example, `debian-binary` with
4-byte content `2.0\n`, and a 17-byte name hitting the fatal path. -/
theorem c2_ar_entry_encoding_witness :
    (∃ hdr : Bytes,
        writeArEntry (strBytes "debian-binary") 4 (strBytes "2.0\n") =
          some (hdr ++ strBytes "2.0\n" ++ (if 4 % 2 = 1 then [10] else []))
        ∧ hdr.length = 60
        ∧ hdr.take 16 = strBytes "debian-binary" ++ List.replicate (16 - (strBytes "debian-binary").length) 32
        ∧ (hdr.drop 48).take 10 = decBytes 4 ++ List.replicate (10 - (decBytes 4).length) 32)
    ∧ writeArEntry (strBytes "seventeen-bytes-x") 0 [] = none :=
  ⟨c2_ar_entry_encoding.1 (strBytes "debian-binary") 4 (strBytes "2.0\n") (by decide) (by decide),
   c2_ar_entry_encoding.2 (strBytes "seventeen-bytes-x") 0 [] (by decide)⟩

/-! ## Decimal formatting and parsing lemmas -/

theorem digitChar_facts :
    ∀ d, d < 10 →
      (Char.ofNat (48 + d)).isDigit = true
      ∧ digitVal (Char.ofNat (48 + d)) = d
      ∧ Char.ofNat (48 + d) ≠ '+'
      ∧ Char.ofNat (48 + d) ≠ '-' := by
  decide

theorem decCharsAux_ne_nil : ∀ fuel n, n < fuel → decCharsAux fuel n ≠ [] := by
  intro fuel n h
  cases fuel with
  | zero => omega
  | succ fuel =>
    by_cases h10 : n < 10 <;> simp [decCharsAux, h10]

theorem decCharsAux_mem_digit :
    ∀ fuel n c, n < fuel → c ∈ decCharsAux fuel n → c.isDigit = true := by
  intro fuel
  induction fuel with
  | zero => intro n c h; omega
  | succ fuel ih =>
    intro n c hf hm
    by_cases h10 : n < 10
    · simp only [decCharsAux, if_pos h10, List.mem_singleton] at hm
      subst hm
      exact (digitChar_facts n h10).1
    · simp only [decCharsAux, if_neg h10, List.mem_append, List.mem_singleton] at hm
      rcases hm with hm | hm
      · refine ih (n / 10) c ?_ hm
        have := Nat.div_lt_self (by omega : 0 < n) (by omega : 1 < 10)
        omega
      · subst hm
        exact (digitChar_facts (n % 10) (Nat.mod_lt _ (by omega))).1

theorem decCharsAux_val :
    ∀ fuel n, n < fuel →
      (decCharsAux fuel n).foldl (fun a c => 10 * a + digitVal c) 0 = n := by
  intro fuel
  induction fuel with
  | zero => intro n h; omega
  | succ fuel ih =>
    intro n hf
    by_cases h10 : n < 10
    · simp only [decCharsAux, if_pos h10, List.foldl_cons, List.foldl_nil]
      have := (digitChar_facts n h10).2.1
      omega
    · have hdiv : n / 10 < fuel := by
        have := Nat.div_lt_self (by omega : 0 < n) (by omega : 1 < 10)
        omega
      simp only [decCharsAux, if_neg h10, List.foldl_append, List.foldl_cons, List.foldl_nil]
      rw [ih (n / 10) hdiv]
      have := (digitChar_facts (n % 10) (Nat.mod_lt _ (by omega))).2.1
      omega

theorem decStr_data (n : Nat) : (decStr n).data = decCharsAux (n + 1) n := rfl

/-- Go `ParseInt` recovers every canonically formatted `int64`. -/
theorem parseInt64_intStr (i : Int) (h1 : -(2 ^ 63) ≤ i) (h2 : i < 2 ^ 63) :
    parseInt64 (intStr i) = some i := by
  have hne := decCharsAux_ne_nil (i.natAbs + 1) i.natAbs (by omega)
  obtain ⟨c, t, hct⟩ := List.exists_cons_of_ne_nil hne
  have hcdig : c.isDigit = true :=
    decCharsAux_mem_digit (i.natAbs + 1) i.natAbs c (by omega) (by rw [hct]; exact List.mem_cons_self c t)
  have hcplus : c ≠ '+' := by
    intro h
    rw [h] at hcdig
    exact absurd hcdig (by decide)
  have hcminus : c ≠ '-' := by
    intro h
    rw [h] at hcdig
    exact absurd hcdig (by decide)
  have hall : (decCharsAux (i.natAbs + 1) i.natAbs).all Char.isDigit = true :=
    List.all_eq_true.mpr (fun x hx => decCharsAux_mem_digit _ _ x (by omega) hx)
  have hval := decCharsAux_val (i.natAbs + 1) i.natAbs (by omega)
  have hallct : (c :: t).all Char.isDigit = true := by rw [← hct]; exact hall
  have hfold : (c :: t).foldl (fun a ch => 10 * a + digitVal ch) 0 = i.natAbs := by
    rw [← hct]; exact hval
  by_cases hneg : i < 0
  · have hi : intStr i = "-" ++ decStr i.natAbs := by
      simp only [intStr, if_pos hneg]
    have hle : i.natAbs ≤ 2 ^ 63 := by omega
    have hres : -((i.natAbs : Int)) = i := by omega
    rw [hi]
    simp [parseInt64, String.data_append, decStr_data, hct, hallct, hfold, hle, hres]
    refine ⟨by omega, ?_⟩
    rw [abs_of_nonpos (by omega : i ≤ 0)]
    omega
  · have hi : intStr i = decStr i.natAbs := by
      simp only [intStr, if_neg hneg]
    have hle : i.natAbs ≤ 2 ^ 63 - 1 := by omega
    have hres : ((i.natAbs : Int)) = i := by omega
    rw [hi]
    simp [parseInt64, decStr_data, hct, hcplus, hcminus, hallct, hfold, hle, hres]
    omega

theorem octalChar_facts :
    ∀ d, d < 8 →
      ('0' ≤ octalDigitChar d) = True
      ∧ (octalDigitChar d ≤ '7') = True
      ∧ digitVal (octalDigitChar d) = d := by
  decide

theorem land_seven (x : Nat) : x &&& 7 = x % 8 := by
  have := Nat.and_pow_two_sub_one_eq_mod x 3
  norm_num at this
  exact this

theorem land_4095 (x : Nat) : x &&& 4095 = x % 4096 := by
  have := Nat.and_pow_two_sub_one_eq_mod x 12
  norm_num at this
  exact this

/-- Formatting any 12-bit permission value and parsing it back recovers the
value exactly. -/
theorem permParse_permString (p : Nat) (hp : p < 4096) :
    permParse (permString p) = some p := by
  have hd0 : (p >>> 9) &&& 7 = p / 512 % 8 := by
    rw [land_seven, Nat.shiftRight_eq_div_pow]
  have hd1 : (p >>> 6) &&& 7 = p / 64 % 8 := by
    rw [land_seven, Nat.shiftRight_eq_div_pow]
  have hd2 : (p >>> 3) &&& 7 = p / 8 % 8 := by
    rw [land_seven, Nat.shiftRight_eq_div_pow]
  have hd3 : p &&& 7 = p % 8 := land_seven p
  have hb0 : p / 512 % 8 < 8 := Nat.mod_lt _ (by omega)
  have hb1 : p / 64 % 8 < 8 := Nat.mod_lt _ (by omega)
  have hb2 : p / 8 % 8 < 8 := Nat.mod_lt _ (by omega)
  have hb3 : p % 8 < 8 := Nat.mod_lt _ (by omega)
  have hf0 := octalChar_facts _ hb0
  have hf1 := octalChar_facts _ hb1
  have hf2 := octalChar_facts _ hb2
  have hf3 := octalChar_facts _ hb3
  have hstr : permString p =
      ⟨[octalDigitChar (p / 512 % 8), octalDigitChar (p / 64 % 8),
        octalDigitChar (p / 8 % 8), octalDigitChar (p % 8)]⟩ := by
    simp only [permString, hd0, hd1, hd2, hd3]
  rw [hstr]
  have hne : (⟨[octalDigitChar (p / 512 % 8), octalDigitChar (p / 64 % 8),
      octalDigitChar (p / 8 % 8), octalDigitChar (p % 8)]⟩ : String) ≠ "" := by
    intro h
    have := congrArg String.data h
    simp at this
  simp only [permParse, if_neg hne, parseOctalU16]
  rw [if_neg (by simp), if_pos (by
      simp only [List.all_cons, List.all_nil, Bool.and_eq_true, decide_eq_true_eq]
      simp [hf0.1, hf0.2.1, hf1.1, hf1.2.1, hf2.1, hf2.2.1, hf3.1, hf3.2.1])]
  simp only [List.foldl_cons, List.foldl_nil, hf0.2.2, hf1.2.2, hf2.2.2, hf3.2.2]
  rw [if_pos (by omega)]
  show some ((8 * (8 * (8 * (8 * 0 + p / 512 % 8) + p / 64 % 8) + p / 8 % 8) + p % 8) &&& 4095) = some p
  rw [land_4095]
  congr 1
  omega

/-! ## Claim C9 -/

/-- C9 (counterexample): the symlink entry type formats to `LNK`, which the
alias table cannot parse — so parse does not succeed on every string format
produces; and a ByName owner `#007` survives formatting but re-parses as
ById 7, reformatting to `#7`. -/
theorem c9_counterexample :
    typeParse (typeString TypeLNK) = none
    ∧ (match ownerParse (ownerString (ownerName "#007")) with
       | .ok o2 => ownerString o2
       | .error _ => "") = "#7"
    ∧ ownerString (ownerName "#007") = "#007" := by
  decide

/-- C9 (amended): `format(parse(format(v))) = format(v)` holds for every
valid value of every primitive type except (a) the symlink entry type, whose
format `LNK` is not in the parse alias table, and (b) ByName owners whose
name is `#` followed by a parseable but non-canonical integer spelling,
which re-parse as ById and reformat canonically.  Parse recovers the exact
value for the enumerations and permissions; owner ids are within `int64`. -/
theorem c9_roundtrip :
    (∀ t, t < 7 → t ≠ TypeLNK → (typeParse (typeString t)).map typeString = some (typeString t))
    ∧ (∀ a, a < 3 → (hashParse (hashString a)).map hashString = some (hashString a))
    ∧ (∀ a, a < 6 → (compressParse (compressString a)).map compressString = some (compressString a))
    ∧ (∀ p, p < 4096 → (permParse (permString p)).map permString = some (permString p))
    ∧ (∀ o : Owner,
        (o.otype = OwnerByID → -(2 ^ 63) ≤ o.id ∧ o.id < 2 ^ 63) →
        (o.otype = OwnerByName → nonCanonicalIdName o.name = false) →
        ∃ o2, ownerParse (ownerString o) = .ok o2 ∧ ownerString o2 = ownerString o) := by
  refine ⟨by decide, by decide, by decide, ?_, ?_⟩
  · intro p hp
    rw [permParse_permString p hp]
    rfl
  intro o hid hname
  by_cases h1 : o.otype = OwnerByID
  · have hb := hid h1
    have hs : ownerString o = "#" ++ intStr o.id := by
      simp only [ownerString, if_pos h1]
    have hdata : ("#" ++ intStr o.id).data = '#' :: (intStr o.id).data := by
      rw [String.data_append]
      rfl
    have hmk : (⟨(intStr o.id).data⟩ : String) = intStr o.id := rfl
    refine ⟨ownerID o.id, ?_, ?_⟩
    · rw [hs]
      simp only [ownerParse, hdata, List.head?_cons, List.tail_cons]
      rw [if_neg (by
          intro h
          have := congrArg String.data h
          rw [hdata] at this
          exact absurd this (by simp))]
      simp only [if_true]
      rw [hmk, parseInt64_intStr o.id hb.1 hb.2]
    · rw [hs]
      rfl
  · by_cases h2 : o.otype = OwnerByName
    · have hs : ownerString o = o.name := by
        simp only [ownerString, if_neg h1, if_pos h2]
      have hnc := hname h2
      by_cases hempty : o.name = ""
      · refine ⟨{}, ?_, ?_⟩
        · rw [hs, hempty]
          rfl
        · rw [hs, hempty]
          rfl
      · by_cases hhash : o.name.data.head? = some '#'
        · rw [hs]
          simp only [nonCanonicalIdName, if_pos hhash] at hnc
          simp only [ownerParse, if_neg hempty, if_pos hhash]
          cases hp : parseInt64 ⟨o.name.data.tail⟩ with
          | none => exact ⟨ownerName o.name, rfl, rfl⟩
          | some k =>
            rw [hp] at hnc
            have hcan : "#" ++ intStr k = o.name := by simpa using hnc
            exact ⟨ownerID k, rfl, hcan⟩
        · rw [hs]
          simp only [ownerParse, if_neg hempty, if_neg hhash]
          exact ⟨ownerName o.name, rfl, rfl⟩
    · have hs : ownerString o = "" := by
        simp only [ownerString, if_neg h1, if_neg h2]
      rw [hs]
      exact ⟨{}, rfl, rfl⟩

/-- C9 (witness): concrete applications — the REG entry type, permission
0644 and owner `#42` all round-trip. -/
theorem c9_roundtrip_witness :
    (typeParse (typeString TypeREG)).map typeString = some (typeString TypeREG)
    ∧ (permParse (permString 420)).map permString = some (permString 420)
    ∧ (∃ o2, ownerParse (ownerString (ownerID 42)) = .ok o2
        ∧ ownerString o2 = ownerString (ownerID 42)) :=
  ⟨c9_roundtrip.1 TypeREG (by decide) (by decide),
   c9_roundtrip.2.2.2.1 420 (by decide),
   c9_roundtrip.2.2.2.2 (ownerID 42)
     (fun _ => by constructor <;> decide)
     (fun h => absurd h (by decide))⟩

/-! ## Claim C10 -/

/-- C10: `Owner.Parse` never returns an error: every input yields `ok` of
exactly the owner the claim describes — empty becomes Unspecified, `#` plus
a parseable decimal integer becomes ById, and everything else (including
`#foo`) becomes ByName of the whole input. -/
theorem c10_owner_parse_total :
    (∀ s : String, ownerParse s = .ok (ownerParseSpec s))
    ∧ ownerParse "#foo" = .ok (ownerName "#foo")
    ∧ ownerParse "" = .ok { otype := OwnerUnspecified }
    ∧ ownerParse "#42" = .ok (ownerID 42) := by
  refine ⟨?_, by decide, by decide, by decide⟩
  intro s
  simp only [ownerParse, ownerParseSpec]
  by_cases h1 : s = ""
  · simp [h1]
  · simp only [if_neg h1]
    by_cases h2 : s.data.head? = some '#'
    · simp only [if_pos h2]
      cases parseInt64 ⟨s.data.tail⟩ <;> rfl
    · simp only [if_neg h2]

/-! ## File-resolution lemmas -/

theorem fixupFile_ftype (f : MFile) : (fixupFile f).ftype ≠ TypeAUTO := by
  simp only [fixupFile]
  repeat' split
  all_goals first
    | exact (show (TypeDIR : Nat) ≠ TypeAUTO by decide)
    | exact (show (TypeREG : Nat) ≠ TypeAUTO by decide)
    | assumption

theorem validateImpl_ok_eq (f f1 : MFile) (h : validateImpl f = .ok f1) :
    f1 = fixupFile f := by
  simp only [validateImpl, bind, Except.bind] at h
  repeat' split at h
  all_goals cases h
  all_goals rfl

theorem validateImpl_ok_ftype (f f1 : MFile) (h : validateImpl f = .ok f1) :
    f1.ftype ≠ TypeAUTO := by
  rw [validateImpl_ok_eq f f1 h]
  exact fixupFile_ftype f

theorem fileResolve_ok_facts (fs : GoFS) (f f1 : MFile) (h : fileResolve fs f = .ok f1) :
    f1.ftype ≠ TypeAUTO ∧ f1.isResolved = true ∧ 0 ≤ f1.size
      ∧ (f1.ftype ≠ TypeREG → f1.size = 0) := by
  cases hv : validateImpl f with
  | error e =>
    simp only [fileResolve, hv] at h
    cases h
  | ok f2 =>
    have hft := validateImpl_ok_ftype f f2 hv
    simp only [fileResolve, hv] at h
    split at h
    · rename_i hreg
      repeat' split at h
      all_goals cases h
      all_goals exact ⟨hft, rfl, Int.natCast_nonneg _, fun hc => absurd hreg hc⟩
    · cases h
      exact ⟨hft, rfl, le_refl 0, fun _ => rfl⟩

/-! ## Claim C8 -/

/-- C8 (counterexample): a fully valid manifest with one `Auto`-typed entry
passes `Manifest.Validate` (value receiver) yet still carries the `Auto`
type afterwards — the fixup computed inside the loop is discarded. -/
theorem c8_counterexample :
    mValidate demoAutoM = .ok ()
    ∧ demoAutoM.files.map (fun f => f.ftype) = [TypeAUTO] := by
  decide

set_option maxHeartbeats 1000000 in
/-- Success of the resolution loop implies no surviving `Auto` type. -/
theorem resolveFiles_no_auto (fs : GoFS) :
    ∀ files idx files1 total,
      resolveFiles fs files idx = some (.ok (files1, total)) →
      files1.all (fun g => g.ftype != TypeAUTO) = true := by
  intro files
  induction files with
  | nil =>
    intro idx files1 total hr
    simp only [resolveFiles] at hr
    cases hr
    rfl
  | cons f rest ih =>
    intro idx files1 total hr
    simp only [resolveFiles] at hr
    cases hfr : fileResolve fs f with
    | error e => simp only [hfr] at hr; cases hr
    | ok f2 =>
      simp only [hfr] at hr
      cases hp : padSigned f2.size 12 with
      | none => simp only [hp] at hr; cases hr
      | some p =>
        simp only [hp] at hr
        cases hrec : resolveFiles fs rest (idx + 1) with
        | none => simp only [hrec] at hr; cases hr
        | some r =>
          cases r with
          | error e => simp only [hrec] at hr; cases hr
          | ok pr =>
            obtain ⟨rest1, tx⟩ := pr
            simp only [hrec] at hr
            cases hr
            simp only [List.all_cons, Bool.and_eq_true, bne_iff_ne, ne_eq]
            exact ⟨(fileResolve_ok_facts fs f f2 hfr).1, ih (idx + 1) rest1 tx hrec⟩

set_option maxHeartbeats 1000000 in
/-- Success of `mResolve` decomposes into its stages. -/
theorem mResolve_ok (fs : GoFS) (m m1 : Manifest) (h : mResolve fs m = some (.ok m1)) :
    ∃ files1 total,
      resolveFiles fs m.files 0 = some (.ok (files1, total))
      ∧ validatePre m = .ok ()
      ∧ validatePost { m with files := files1 } = .ok ()
      ∧ m1 = { m with files := files1, installedSize := total, isResolved := true } := by
  simp only [mResolve] at h
  cases hpre : validatePre m with
  | error e => simp only [hpre] at h; cases h
  | ok u =>
    simp only [hpre] at h
    cases hr : resolveFiles fs m.files 0 with
    | none => simp only [hr] at h; cases h
    | some r =>
      cases r with
      | error e => simp only [hr] at h; cases h
      | ok pr =>
        obtain ⟨files1x, totalx⟩ := pr
        simp only [hr] at h
        cases hpost : validatePost { m with files := files1x } with
        | error e2 => simp only [hpost] at h; cases h
        | ok u2 =>
          simp only [hpost] at h
          cases h
          refine ⟨files1x, totalx, rfl, rfl, ?_, rfl⟩
          cases u2
          exact hpost

/-- C8 (amended): after a successful `Manifest.Resolve`, no file entry's
type is `Auto` — each `Auto` entry was replaced by `Directory` (trailing
slash) or `RegularFile` and the replacement persisted; `Manifest.Validate`
performs the same check on copies, so it does not persist the fixup. -/
theorem c8_no_auto_after_resolve (fs : GoFS) (m m1 : Manifest)
    (h : mResolve fs m = some (.ok m1)) :
    m1.files.all (fun g => g.ftype != TypeAUTO) = true := by
  obtain ⟨files1, total, hr, _, _, hm1⟩ := mResolve_ok fs m m1 h
  subst hm1
  exact resolveFiles_no_auto fs m.files 0 files1 total hr

/-- C8 (witness): the resolved demo manifest with an `Auto` entry carries
no `Auto` type afterwards. -/
theorem c8_no_auto_after_resolve_witness :
    demoAutoM1.files.all (fun g => g.ftype != TypeAUTO) = true :=
  c8_no_auto_after_resolve demoFS demoAutoM demoAutoM1 (by rfl)

/-! ## Claim C6 -/

/-- On a non-negative `int64` size, `padSigned` computes the spec's
round-up-to-4096 formula. -/
theorem padSigned_formula (s : Int) (h0 : 0 ≤ s) (hlt : s < 2 ^ 63) (p : Int)
    (hp : padSigned s 12 = some p) : p = ((s + 4095) / 4096) * 4096 := by
  have h1 : ((1 : Nat) <<< 12) = 4096 := by decide
  have hmod : (s.natAbs + 4095) % 2 ^ 64 = s.natAbs + 4095 := Nat.mod_eq_of_lt (by omega)
  simp only [padSigned, pad, h1] at hp
  norm_num at hp
  obtain ⟨hlt2, hv⟩ := hp
  rw [if_neg (not_lt.mpr h0)] at hv
  omega

/-- Success of the resolution loop computes the installed size as the sum
of the per-entry round-ups (regular files only; other entries resolve to
size 0). -/
theorem resolveFiles_sum (fs : GoFS) :
    ∀ files idx files1 total,
      resolveFiles fs files idx = some (.ok (files1, total)) →
      (∀ g ∈ files1, g.size < 2 ^ 63) →
      total = (files1.map
        (fun g => if g.ftype = TypeREG then ((g.size + 4095) / 4096) * 4096 else 0)).sum := by
  intro files
  induction files with
  | nil =>
    intro idx files1 total hr hsz
    simp only [resolveFiles] at hr
    cases hr
    rfl
  | cons f rest ih =>
    intro idx files1 total hr hsz
    simp only [resolveFiles] at hr
    cases hfr : fileResolve fs f with
    | error e => simp only [hfr] at hr; cases hr
    | ok f2 =>
      simp only [hfr] at hr
      cases hp : padSigned f2.size 12 with
      | none => simp only [hp] at hr; cases hr
      | some p =>
        simp only [hp] at hr
        cases hrec : resolveFiles fs rest (idx + 1) with
        | none => simp only [hrec] at hr; cases hr
        | some r =>
          cases r with
          | error e => simp only [hrec] at hr; cases hr
          | ok pr =>
            obtain ⟨rest1, tx⟩ := pr
            simp only [hrec] at hr
            cases hr
            have hfacts := fileResolve_ok_facts fs f f2 hfr
            have hszf := hsz f2 (List.mem_cons_self f2 rest1)
            have hval : p = if f2.ftype = TypeREG then ((f2.size + 4095) / 4096) * 4096 else 0 := by
              by_cases hreg : f2.ftype = TypeREG
              · rw [if_pos hreg]
                exact padSigned_formula f2.size hfacts.2.2.1 hszf p hp
              · rw [if_neg hreg]
                have hz : f2.size = 0 := hfacts.2.2.2 hreg
                rw [hz] at hp
                have := padSigned_formula 0 (le_refl 0) (by norm_num) p hp
                norm_num at this
                exact this
            rw [List.map_cons, List.sum_cons, ← hval,
              ih (idx + 1) rest1 tx hrec (fun g hg => hsz g (List.mem_cons_of_mem f2 hg))]

/-- C6: for every manifest that `Resolve` completes successfully with
entry sizes in the `int64` range, the computed installed size equals the
sum over regular-file entries of their resolved content size rounded up to
the next multiple of 4096 bytes (non-regular entries contribute 0); in
particular any manifest resolving to regular files of sizes 10, 4096 and
4097 has installed size 4096 + 4096 + 8192 = 16384. -/
theorem c6_installed_size :
    (∀ (fs : GoFS) (m m1 : Manifest),
      mResolve fs m = some (.ok m1) →
      (∀ g ∈ m1.files, g.size < 2 ^ 63) →
      m1.installedSize =
        (m1.files.map
          (fun g => if g.ftype = TypeREG then ((g.size + 4095) / 4096) * 4096 else 0)).sum)
    ∧ (∀ g1 g2 g3 : MFile,
      g1.ftype = TypeREG → g1.size = 10 →
      g2.ftype = TypeREG → g2.size = 4096 →
      g3.ftype = TypeREG → g3.size = 4097 →
      ([g1, g2, g3].map
        (fun g => if g.ftype = TypeREG then ((g.size + 4095) / 4096) * 4096 else 0)).sum = 16384) := by
  constructor
  · intro fs m m1 h hsz
    obtain ⟨files1, total, hr, _, _, hm1⟩ := mResolve_ok fs m m1 h
    subst hm1
    exact resolveFiles_sum fs m.files 0 files1 total hr hsz
  · intro g1 g2 g3 ht1 hs1 ht2 hs2 ht3 hs3
    simp [ht1, hs1, ht2, hs2, ht3, hs3]

/-- C6 (witness): the resolved demo manifest satisfies the law, and three
regular entries of sizes 10, 4096 and 4097 sum to 16384. -/
theorem c6_installed_size_witness :
    (demoM1.installedSize =
      (demoM1.files.map
        (fun g => if g.ftype = TypeREG then ((g.size + 4095) / 4096) * 4096 else 0)).sum)
    ∧ ([({ name := "a.bin", ftype := TypeREG, size := 10 } : MFile),
        { name := "b.bin", ftype := TypeREG, size := 4096 },
        { name := "c.bin", ftype := TypeREG, size := 4097 }].map
        (fun g => if g.ftype = TypeREG then ((g.size + 4095) / 4096) * 4096 else 0)).sum = 16384 :=
  ⟨c6_installed_size.1 demoFS demoM demoM1 (by rfl) (by decide),
   c6_installed_size.2 _ _ _ (by decide) (by decide) (by decide) (by decide) (by decide) (by decide)⟩

/-! ## Claim C5 -/

theorem lookup_cons_none (a k : String) (v : Nat) (l : List (String × Nat))
    (h : List.lookup a ((k, v) :: l) = none) : List.lookup a l = none := by
  simp only [List.lookup] at h
  split at h
  · cases h
  · exact h

theorem lookup_cons_ne (a k : String) (v : Nat) (l : List (String × Nat))
    (h : List.lookup a ((k, v) :: l) = none) : a ≠ k := by
  intro heq
  simp only [List.lookup, heq, beq_self_eq_true] at h
  cases h

/-- Inversion of one step of the `validatePost` file loop. -/
theorem postLoop_cons_ok (f : MFile) (rest : List MFile) (idx : Nat)
    (seen : List (String × Nat)) (known : List String)
    (h : postLoop (f :: rest) idx seen known = .ok ()) :
    List.lookup f.name seen = none
    ∧ known.contains (pathDir (trimRightSlashes f.name)) = true
    ∧ postLoop rest (idx + 1) ((f.name, idx) :: seen)
        (if f.ftype = TypeDIR then trimRightSlashes f.name :: known else known) = .ok () := by
  simp only [postLoop] at h
  cases hl : List.lookup f.name seen with
  | some old => simp only [hl] at h; cases h
  | none =>
    simp only [hl] at h
    split at h
    · rename_i hdir
      exact ⟨rfl, hdir, h⟩
    · cases h

/-- Every file processed by a successful loop was absent from the incoming
duplicate-detection map. -/
theorem postLoop_ok_not_seen :
    ∀ (files : List MFile) (idx : Nat) (seen : List (String × Nat)) (known : List String),
      postLoop files idx seen known = .ok () →
      ∀ g ∈ files, List.lookup g.name seen = none := by
  intro files
  induction files with
  | nil => intro _ _ _ _ g hg; cases hg
  | cons f rest ih =>
    intro idx seen known h g hg
    obtain ⟨h1, _, h3⟩ := postLoop_cons_ok f rest idx seen known h
    rcases List.mem_cons.mp hg with rfl | hg
    · exact h1
    · exact lookup_cons_none _ _ _ _ (ih _ _ _ h3 g hg)

/-- A successful loop implies pairwise-distinct names. -/
theorem postLoop_ok_pairwise :
    ∀ (files : List MFile) (idx : Nat) (seen : List (String × Nat)) (known : List String),
      postLoop files idx seen known = .ok () →
      files.Pairwise (fun a b => a.name ≠ b.name) := by
  intro files
  induction files with
  | nil =>
    intro _ _ _ _
    exact List.Pairwise.nil
  | cons f rest ih =>
    intro idx seen known h
    obtain ⟨_, _, h3⟩ := postLoop_cons_ok f rest idx seen known h
    refine List.Pairwise.cons ?_ (ih _ _ _ h3)
    intro g hg heq
    exact lookup_cons_ne g.name f.name idx seen
      (postLoop_ok_not_seen rest _ _ _ h3 g hg) heq.symm

/-- A successful loop implies every entry's parent directory was already
known: either from the incoming set or declared by an earlier
directory-typed entry of the list. -/
theorem postLoop_ok_dir :
    ∀ (files : List MFile) (idx : Nat) (seen : List (String × Nat)) (known : List String),
      postLoop files idx seen known = .ok () →
      ∀ i (hi : i < files.length),
        pathDir (trimRightSlashes (files.get ⟨i, hi⟩).name) ∈ known
        ∨ pathDir (trimRightSlashes (files.get ⟨i, hi⟩).name) ∈
            ((files.take i).filter (fun g => g.ftype = TypeDIR)).map
              (fun g => trimRightSlashes g.name) := by
  intro files
  induction files with
  | nil => intro _ _ _ _ i hi; simp at hi
  | cons f rest ih =>
    intro idx seen known h i hi
    obtain ⟨_, h2, h3⟩ := postLoop_cons_ok f rest idx seen known h
    cases i with
    | zero =>
      left
      simpa using h2
    | succ i2 =>
      rw [List.get_cons_succ]
      have hrec := ih _ _ _ h3 i2 (by simpa using hi)
      rcases hrec with hrec | hrec
      · by_cases hdirf : f.ftype = TypeDIR
        · rw [if_pos hdirf] at hrec
          rcases List.mem_cons.mp hrec with heq | hmem
          · right
            rw [List.take_succ_cons, List.filter_cons_of_pos (by simp [hdirf]), List.map_cons]
            exact List.mem_cons.mpr (Or.inl heq)
          · left
            exact hmem
        · rw [if_neg hdirf] at hrec
          left
          exact hrec
      · right
        rw [List.take_succ_cons]
        by_cases hdirf : f.ftype = TypeDIR
        · rw [List.filter_cons_of_pos (by simp [hdirf]), List.map_cons]
          exact List.mem_cons.mpr (Or.inr hrec)
        · rw [List.filter_cons_of_neg (by simp [hdirf])]
          exact hrec

/-- A successful `checkImplicitDirs` returns the trimmed directory list. -/
theorem checkImplicitDirs_ok :
    ∀ (dirs : List String) (idx : Nat) (ds : List String),
      checkImplicitDirs dirs idx = .ok ds → ds = dirs.map trimRightSlashes := by
  intro dirs
  induction dirs with
  | nil =>
    intro idx ds h
    simp only [checkImplicitDirs] at h
    cases h
    rfl
  | cons d rest ih =>
    intro idx ds h
    simp only [checkImplicitDirs] at h
    split at h
    · cases h
    · cases hrec : checkImplicitDirs rest (idx + 1) with
      | error e => simp only [hrec] at h; cases h
      | ok ds2 =>
        simp only [hrec] at h
        cases h
        rw [List.map_cons, ih _ _ hrec]

/-- Success of `validatePost` decomposes into its two stages. -/
theorem validatePost_ok (m : Manifest) (h : validatePost m = .ok ()) :
    postLoop m.files 0 [] ("." :: m.implicitDirs.map trimRightSlashes) = .ok () := by
  simp only [validatePost] at h
  cases hck : checkImplicitDirs m.implicitDirs 0 with
  | error e => simp only [hck] at h; cases h
  | ok ds =>
    simp only [hck] at h
    rw [checkImplicitDirs_ok m.implicitDirs 0 ds hck] at h
    exact h

/-- C5: the cross-entry validation pass accepts only manifests with
pairwise-distinct entry names in which every entry's parent directory
(trailing slashes trimmed, then `path.Dir`) is `.`, an implicit directory,
or declared by an earlier directory-typed entry; hence a duplicate name or
an undeclared (e.g. later-declared) parent directory is rejected.  In
particular, a file below `a/` whose directory entry comes later is
rejected, while the same entries with the directory first are accepted. -/
theorem c5_cross_entry_validation :
    (∀ m : Manifest, validatePost m = .ok () →
      m.files.Pairwise (fun a b => a.name ≠ b.name)
      ∧ ∀ i (hi : i < m.files.length),
          pathDir (trimRightSlashes (m.files.get ⟨i, hi⟩).name) = "."
          ∨ pathDir (trimRightSlashes (m.files.get ⟨i, hi⟩).name) ∈
              m.implicitDirs.map trimRightSlashes
          ∨ pathDir (trimRightSlashes (m.files.get ⟨i, hi⟩).name) ∈
              ((m.files.take i).filter (fun g => g.ftype = TypeDIR)).map
                (fun g => trimRightSlashes g.name))
    ∧ (∀ (m : Manifest) (i j : Nat) (hij : i < j) (hj : j < m.files.length),
        (m.files.get ⟨i, lt_trans hij hj⟩).name = (m.files.get ⟨j, hj⟩).name →
        validatePost m ≠ .ok ())
    ∧ (∀ (m : Manifest) (i : Nat) (hi : i < m.files.length),
        ¬ (pathDir (trimRightSlashes (m.files.get ⟨i, hi⟩).name) = "."
          ∨ pathDir (trimRightSlashes (m.files.get ⟨i, hi⟩).name) ∈
              m.implicitDirs.map trimRightSlashes
          ∨ pathDir (trimRightSlashes (m.files.get ⟨i, hi⟩).name) ∈
              ((m.files.take i).filter (fun g => g.ftype = TypeDIR)).map
                (fun g => trimRightSlashes g.name)) →
        validatePost m ≠ .ok ())
    ∧ validatePost demoLateM = .error (.dirMissing 0 "a")
    ∧ validatePost demoEarlyM = .ok () := by
  have part1 : ∀ m : Manifest, validatePost m = .ok () →
      m.files.Pairwise (fun a b => a.name ≠ b.name)
      ∧ ∀ i (hi : i < m.files.length),
          pathDir (trimRightSlashes (m.files.get ⟨i, hi⟩).name) = "."
          ∨ pathDir (trimRightSlashes (m.files.get ⟨i, hi⟩).name) ∈
              m.implicitDirs.map trimRightSlashes
          ∨ pathDir (trimRightSlashes (m.files.get ⟨i, hi⟩).name) ∈
              ((m.files.take i).filter (fun g => g.ftype = TypeDIR)).map
                (fun g => trimRightSlashes g.name) := by
    intro m hok
    have hpl := validatePost_ok m hok
    refine ⟨postLoop_ok_pairwise m.files 0 [] _ hpl, ?_⟩
    intro i hi
    have := postLoop_ok_dir m.files 0 [] _ hpl i hi
    rcases this with hk | hpre
    · rcases List.mem_cons.mp hk with heq | hmem
      · exact Or.inl heq
      · exact Or.inr (Or.inl hmem)
    · exact Or.inr (Or.inr hpre)
  refine ⟨part1, ?_, ?_, by decide, by decide⟩
  · intro m i j hij hj heq hok
    have hpw := (part1 m hok).1
    exact (List.pairwise_iff_get.mp hpw ⟨i, lt_trans hij hj⟩ ⟨j, hj⟩ hij) heq
  · intro m i hi hbad hok
    exact hbad ((part1 m hok).2 i hi)

/-- C5 (witness): a duplicate-name manifest is rejected, and the
directory-first manifest's entries have pairwise-distinct names. -/
theorem c5_cross_entry_validation_witness :
    validatePost demoDupM ≠ .ok ()
    ∧ demoEarlyM.files.Pairwise (fun a b => a.name ≠ b.name) :=
  ⟨c5_cross_entry_validation.2.1 demoDupM 0 1 (by decide) (by decide) (by decide),
   (c5_cross_entry_validation.1 demoEarlyM (by decide)).1⟩

/-! ## Claim C7 -/

theorem opt_bind_some {α β : Type} {x : Option α} {a : α} (hx : x = some a)
    (f : α → Option β) {b : β} (hf : f a = some b) : x >>= f = some b := by
  rw [hx]
  exact hf

/-- Success of `BuildDataTarball` decomposes into its stages. -/
theorem buildDataTarball_ok (tarEnc : List TarEntry → Bytes) (cEnc : Nat → Bytes → Bytes)
    (hashFn : Nat → Bytes → Bytes) (b : Builder) (m : Manifest) (db : Bytes) (m2 : Manifest)
    (h : buildDataTarball tarEnc cEnc hashFn b m = some (.ok (db, m2))) :
    m.isResolved = true
    ∧ (∃ comp, newWriterOK cEnc (fillDefaults b).compression = some comp)
    ∧ ∃ ents files1,
        dataLoop hashFn (fillDefaults b).root (fillDefaults b).zeroTime
          ((fillDefaults b).hashes.getD []) m.files 0 = some (.ok (ents, files1))
        ∧ m2 = { m with files := files1, isHashed := true } := by
  simp only [buildDataTarball] at h
  by_cases hres : m.isResolved = true
  · rw [if_neg (not_not_intro hres)] at h
    cases hnw : newWriterOK cEnc (fillDefaults b).compression with
    | none => simp only [hnw] at h; cases h
    | some comp =>
      simp only [hnw] at h
      cases hdl : dataLoop hashFn (fillDefaults b).root (fillDefaults b).zeroTime
          ((fillDefaults b).hashes.getD []) m.files 0 with
      | none => simp only [hdl] at h; cases h
      | some r =>
        cases r with
        | error e => simp only [hdl] at h; cases h
        | ok pr =>
          obtain ⟨ents, files1⟩ := pr
          simp only [hdl] at h
          cases h
          exact ⟨hres, ⟨comp, rfl⟩, ents, files1, rfl, rfl⟩
  · rw [if_pos hres] at h
    cases h

/-- On a resolved manifest every rendering method succeeds, so the full
control-member list exists. -/
theorem controlEntries_some (b : Builder) (m : Manifest) (h : m.isResolved = true) :
    ∃ es, controlEntries b m = some es := by
  have h1 : mControlFile m = some (strBytes (controlText m)) := by
    rw [mControlFile, if_neg (not_not_intro h)]
  have h3 : mPreInstallScript m = some (scriptBytes m.preInstall) := by
    rw [mPreInstallScript, if_neg (not_not_intro h)]
  have h4 : mPostInstallScript m = some (scriptBytes m.postInstall) := by
    rw [mPostInstallScript, if_neg (not_not_intro h)]
  have h5 : mPreRemoveScript m = some (scriptBytes m.preRemove) := by
    rw [mPreRemoveScript, if_neg (not_not_intro h)]
  have h6 : mPostRemoveScript m = some (scriptBytes m.postRemove) := by
    rw [mPostRemoveScript, if_neg (not_not_intro h)]
  have h2 : ∃ cf, mConfFiles m = some cf := by
    by_cases hc : m.files.filter (fun f => f.isConf) = []
    · exact ⟨none, by rw [mConfFiles, if_neg (not_not_intro h)]; exact if_pos hc⟩
    · exact ⟨_, by rw [mConfFiles, if_neg (not_not_intro h)]; exact if_neg hc⟩
  obtain ⟨cf, h2⟩ := h2
  exact ⟨_, opt_bind_some h1 _ (opt_bind_some h2 _ (opt_bind_some h3 _ (opt_bind_some h4 _
    (opt_bind_some h5 _ (opt_bind_some h6 _ rfl)))))⟩

/-- C7: `BuildControlTarball` panics (`none`) whenever the manifest is not
yet marked hashed by `BuildDataTarball`; the rendering methods panic
whenever `Resolve` has not completed; and after the prerequisite phase the
same operations succeed. -/
theorem c7_phase_ordering :
    (∀ (tarEnc : List TarEntry → Bytes) (cEnc : Nat → Bytes → Bytes) (b : Builder) (m : Manifest),
        m.isHashed = false → buildControlTarball tarEnc cEnc b m = none)
    ∧ (∀ m : Manifest, m.isResolved = false →
        mControlFile m = none ∧ mConfFiles m = none ∧ mPreInstallScript m = none
          ∧ mPostInstallScript m = none ∧ mPreRemoveScript m = none
          ∧ mPostRemoveScript m = none)
    ∧ (∀ (tarEnc : List TarEntry → Bytes) (cEnc : Nat → Bytes → Bytes)
        (hashFn : Nat → Bytes → Bytes) (b : Builder) (m : Manifest) (db : Bytes) (m2 : Manifest),
        buildDataTarball tarEnc cEnc hashFn b m = some (.ok (db, m2)) →
        ∃ cb, buildControlTarball tarEnc cEnc b m2 = some (.ok cb))
    ∧ (∀ (fs : GoFS) (m m1 : Manifest), mResolve fs m = some (.ok m1) →
        (∃ x, mControlFile m1 = some x) ∧ (∃ x, mConfFiles m1 = some x)
          ∧ (∃ x, mPreInstallScript m1 = some x) ∧ (∃ x, mPostInstallScript m1 = some x)
          ∧ (∃ x, mPreRemoveScript m1 = some x) ∧ (∃ x, mPostRemoveScript m1 = some x)) := by
  refine ⟨?_, ?_, ?_, ?_⟩
  · intro tarEnc cEnc b m hh
    simp only [buildControlTarball]
    by_cases hres : m.isResolved = true
    · rw [if_neg (not_not_intro hres), if_pos (by simp [hh])]
    · rw [if_pos hres]
  · intro m hres
    have hni : ¬ m.isResolved = true := by simp [hres]
    exact ⟨by rw [mControlFile, if_pos hni], by rw [mConfFiles, if_pos hni],
      by rw [mPreInstallScript, if_pos hni], by rw [mPostInstallScript, if_pos hni],
      by rw [mPreRemoveScript, if_pos hni], by rw [mPostRemoveScript, if_pos hni]⟩
  · intro tarEnc cEnc hashFn b m db m2 h
    obtain ⟨hres, ⟨comp, hnw⟩, ents, files1, hdl, hm2⟩ :=
      buildDataTarball_ok tarEnc cEnc hashFn b m db m2 h
    have hres2 : m2.isResolved = true := by rw [hm2]; exact hres
    have hh2 : m2.isHashed = true := by rw [hm2]
    obtain ⟨es, hce⟩ := controlEntries_some (fillDefaults b) m2 hres2
    refine ⟨comp (tarEnc es), ?_⟩
    simp only [buildControlTarball]
    rw [if_neg (not_not_intro hres2), if_neg (by simp [hh2])]
    simp only [hnw, hce]
  · intro fs m m1 h
    obtain ⟨files1, total, hr, hpre, hpost, hm1⟩ := mResolve_ok fs m m1 h
    have hres : m1.isResolved = true := by rw [hm1]
    refine ⟨⟨_, by rw [mControlFile, if_neg (not_not_intro hres)]⟩, ?_,
      ⟨_, by rw [mPreInstallScript, if_neg (not_not_intro hres)]⟩,
      ⟨_, by rw [mPostInstallScript, if_neg (not_not_intro hres)]⟩,
      ⟨_, by rw [mPreRemoveScript, if_neg (not_not_intro hres)]⟩,
      ⟨_, by rw [mPostRemoveScript, if_neg (not_not_intro hres)]⟩⟩
    by_cases hc : m1.files.filter (fun f => f.isConf) = []
    · exact ⟨none, by rw [mConfFiles, if_neg (not_not_intro hres)]; exact if_pos hc⟩
    · exact ⟨_, by rw [mConfFiles, if_neg (not_not_intro hres)]; exact if_neg hc⟩

/-- C7 (witness): the resolved-but-unhashed demo manifest panics the
control build, the unresolved one panics the renderers, and after the
prerequisite phases both succeed. -/
theorem c7_phase_ordering_witness :
    buildControlTarball demoTar demoCmp demoB demoM1 = none
    ∧ mControlFile demoM = none
    ∧ (∃ cb, buildControlTarball demoTar demoCmp demoB demoDataM2 = some (.ok cb))
    ∧ (∃ x, mControlFile demoM1 = some x) :=
  ⟨c7_phase_ordering.1 demoTar demoCmp demoB demoM1 (by decide),
   (c7_phase_ordering.2.1 demoM (by decide)).1,
   c7_phase_ordering.2.2.1 demoTar demoCmp demoHash demoB demoM1 demoDataBytes demoDataM2 (by rfl),
   (c7_phase_ordering.2.2.2 demoFS demoM demoM1 (by rfl)).1⟩

/-- On a resolved manifest, the control-member list is exactly the
source-order concatenation of the seven `writeControlFile` calls. -/
theorem controlEntries_eq (b : Builder) (m : Manifest) (hres : m.isResolved = true) :
    controlEntries b m = some
      (writeControlEntry b.zeroTime "control" false (some (strBytes (controlText m)))
        ++ ((b.hashes.getD []).map (fun a => writeControlEntry b.zeroTime (hashFileName a) false
              (some (checksumBytes a m.files)))).flatten
        ++ writeControlEntry b.zeroTime "conffiles" false
            (if m.files.filter (fun f => f.isConf) = [] then none
             else some (strBytes (((m.files.filter (fun f => f.isConf)).map
               (fun f => f.name ++ "\n")).foldr (· ++ ·) "")))
        ++ writeControlEntry b.zeroTime "preinst" true (scriptBytes m.preInstall)
        ++ writeControlEntry b.zeroTime "postinst" true (scriptBytes m.postInstall)
        ++ writeControlEntry b.zeroTime "prerm" true (scriptBytes m.preRemove)
        ++ writeControlEntry b.zeroTime "postrm" true (scriptBytes m.postRemove)) := by
  have h1 : mControlFile m = some (strBytes (controlText m)) := by
    rw [mControlFile, if_neg (not_not_intro hres)]
  have h2 : mConfFiles m = some (if m.files.filter (fun f => f.isConf) = [] then none
      else some (strBytes (((m.files.filter (fun f => f.isConf)).map
        (fun f => f.name ++ "\n")).foldr (· ++ ·) ""))) := by
    simp only [mConfFiles]
    rw [if_neg (not_not_intro hres)]
    by_cases hc : m.files.filter (fun f => f.isConf) = []
    · rw [if_pos hc, if_pos hc]
    · rw [if_neg hc, if_neg hc]
  have h3 : mPreInstallScript m = some (scriptBytes m.preInstall) := by
    rw [mPreInstallScript, if_neg (not_not_intro hres)]
  have h4 : mPostInstallScript m = some (scriptBytes m.postInstall) := by
    rw [mPostInstallScript, if_neg (not_not_intro hres)]
  have h5 : mPreRemoveScript m = some (scriptBytes m.preRemove) := by
    rw [mPreRemoveScript, if_neg (not_not_intro hres)]
  have h6 : mPostRemoveScript m = some (scriptBytes m.postRemove) := by
    rw [mPostRemoveScript, if_neg (not_not_intro hres)]
  exact opt_bind_some h1 _ (opt_bind_some h2 _ (opt_bind_some h3 _ (opt_bind_some h4 _
    (opt_bind_some h5 _ (opt_bind_some h6 _ rfl)))))

/-! ## Claim C4 -/

/-- C4 (counterexample): the claim's fixed member list always includes
`conffiles`, but the successfully built demo package (which marks no entry
`isConf`) has no `conffiles` member at all — `Manifest.ConfFiles` returns a
nil slice and `writeControlFile` skips nil data entirely. -/
theorem c4_counterexample :
    (controlEntries (fillDefaults demoB) demoM2).map (fun es => es.map (fun e => e.hdr.name))
      = some ["control", "md5sum", "sha1sum", "sha256sum"]
    ∧ "conffiles" ∉ ["control", "md5sum", "sha1sum", "sha256sum"] := by
  exact ⟨by decide, by decide⟩

/-- C4 (amended): the control members appear in the fixed order `control`,
the checksum files, `conffiles`, `preinst`, `postinst`, `prerm`, `postrm`,
where `conffiles` is present if and only if some entry is marked `isConf`
(its content the newline-joined names), and each maintainer script is
present if and only if its line list is non-empty, rendered as the fixed
preamble plus the caller's lines with mode 0644 plus the executable bits. -/
theorem c4_control_members (b : Builder) (m : Manifest) (es : List TarEntry)
    (hres : m.isResolved = true) (hce : controlEntries b m = some es) :
    es.map (fun e => e.hdr.name)
      = ["control"] ++ (b.hashes.getD []).map hashFileName
        ++ (if m.files.filter (fun f => f.isConf) = [] then [] else ["conffiles"])
        ++ (if m.preInstall = [] then [] else ["preinst"])
        ++ (if m.postInstall = [] then [] else ["postinst"])
        ++ (if m.preRemove = [] then [] else ["prerm"])
        ++ (if m.postRemove = [] then [] else ["postrm"])
    ∧ (m.preInstall ≠ [] → scriptEntryOf b.zeroTime "preinst" m.preInstall ∈ es)
    ∧ (m.postInstall ≠ [] → scriptEntryOf b.zeroTime "postinst" m.postInstall ∈ es)
    ∧ (m.preRemove ≠ [] → scriptEntryOf b.zeroTime "prerm" m.preRemove ∈ es)
    ∧ (m.postRemove ≠ [] → scriptEntryOf b.zeroTime "postrm" m.postRemove ∈ es)
    ∧ (¬ m.files.filter (fun f => f.isConf) = [] →
        ({ hdr := { typeflag := tarTypeReg, name := "conffiles",
                    mode := unixModeREG ||| 0o644 ||| 0,
                    size := ((strBytes (((m.files.filter (fun f => f.isConf)).map
                      (fun f => f.name ++ "\n")).foldr (· ++ ·) "")).length : Int),
                    mtime := b.zeroTime },
           content := strBytes (((m.files.filter (fun f => f.isConf)).map
             (fun f => f.name ++ "\n")).foldr (· ++ ·) "") } : TarEntry) ∈ es) := by
  have hsome := controlEntries_eq b m hres
  have hes : es = _ := (Option.some.inj (hsome.symm.trans hce)).symm
  subst hes
  have hB : ∀ algos : List Nat,
      (((algos.map (fun a => writeControlEntry b.zeroTime (hashFileName a) false
          (some (checksumBytes a m.files)))).flatten).map (fun e => e.hdr.name))
        = algos.map hashFileName := by
    intro algos
    induction algos with
    | nil => rfl
    | cons a rest ih =>
      rw [List.map_cons, List.flatten_cons, List.map_append, ih]
      rfl
  refine ⟨?_, ?_, ?_, ?_, ?_, ?_⟩
  · simp only [List.map_append, hB]
    by_cases hc : m.files.filter (fun f => f.isConf) = [] <;>
    by_cases hp1 : m.preInstall = [] <;>
    by_cases hp2 : m.postInstall = [] <;>
    by_cases hp3 : m.preRemove = [] <;>
    by_cases hp4 : m.postRemove = [] <;>
      simp [writeControlEntry, scriptBytes, hc, hp1, hp2, hp3, hp4]
  · intro hne
    simp [writeControlEntry, scriptBytes, hne, scriptEntryOf]
  · intro hne
    simp [writeControlEntry, scriptBytes, hne, scriptEntryOf]
  · intro hne
    simp [writeControlEntry, scriptBytes, hne, scriptEntryOf]
  · intro hne
    simp [writeControlEntry, scriptBytes, hne, scriptEntryOf]
  · intro hne
    simp [writeControlEntry, scriptBytes, hne]

/-- C4 (witness): the conffile-and-preinst demo has exactly the members
`control`, the three checksum files, `conffiles` and `preinst`, and its
`preinst` entry is the executable rendered script. -/
theorem c4_control_members_witness :
    demoConfEntries.map (fun e => e.hdr.name)
      = ["control", "md5sum", "sha1sum", "sha256sum", "conffiles", "preinst"]
    ∧ scriptEntryOf (fillDefaults demoB).zeroTime "preinst" demoConfM2.preInstall
        ∈ demoConfEntries := by
  have h := c4_control_members (fillDefaults demoB) demoConfM2 demoConfEntries
    (by decide) (by rfl)
  exact ⟨h.1.trans (by decide), h.2.1 (by decide)⟩

/-! ## Claim C3 -/

theorem lookup_map_self {β : Type} (l : List Nat) (g : Nat → β) (a : Nat) (ha : a ∈ l) :
    List.lookup a (l.map (fun x => (x, g x))) = some (g a) := by
  induction l with
  | nil => cases ha
  | cons x rest ih =>
    by_cases hax : a = x
    · subst hax
      simp [List.lookup]
    · rcases List.mem_cons.mp ha with h | h
      · exact absurd h hax
      · have hbe : (a == x) = false := by simpa using hax
        simp [List.lookup, hbe, ih h]

/-- A successful `File.Reader` on a regular entry yields exactly the
entry's content bytes. -/
theorem readerOf_ok_content (fs : GoFS) (f : MFile) (c : Bytes)
    (hreg : f.ftype = TypeREG) (h : readerOf fs f = some (.ok c)) : c = specContent fs f := by
  simp only [readerOf] at h
  by_cases hres : f.isResolved = true
  · rw [if_neg (not_not_intro hres)] at h
    rw [if_neg (not_not_intro hreg)] at h
    cases hb : f.bytes with
    | some bs =>
      simp only [hb] at h
      cases h
      simp [specContent, hb]
    | none =>
      simp only [hb] at h
      cases ht : f.text with
      | some t =>
        simp only [ht] at h
        cases h
        simp [specContent, hb, ht]
      | none =>
        simp only [ht] at h
        cases hfs : fs (f.path.getD f.name) with
        | some content =>
          simp only [hfs] at h
          cases h
          simp [specContent, hb, ht, hfs]
        | none => simp only [hfs] at h; cases h
  · rw [if_pos hres] at h
    cases h

theorem checksumBytes_cons_hashed (a : Nat) (f : MFile) (fsl : List MFile)
    (hh : f.isHashed = true) :
    checksumBytes a (f :: fsl) = strBytes (hexEncode (lookupHash f.hashes a)) ++ strBytes "  "
      ++ strBytes f.name ++ strBytes "\n" ++ checksumBytes a fsl := by
  simp [checksumBytes, hh]

theorem checksumBytes_cons_unhashed (a : Nat) (f : MFile) (fsl : List MFile)
    (hh : f.isHashed = false) :
    checksumBytes a (f :: fsl) = checksumBytes a fsl := by
  simp [checksumBytes, hh]

theorem specChecksumText_cons_reg (hashFn : Nat → Bytes → Bytes) (fs : GoFS) (a : Nat)
    (f : MFile) (fsl : List MFile) (hreg : f.ftype = TypeREG) :
    specChecksumText hashFn fs a (f :: fsl)
      = strBytes (hexEncode (hashFn a (specContent fs f))) ++ strBytes "  "
        ++ strBytes f.name ++ strBytes "\n" ++ specChecksumText hashFn fs a fsl := by
  simp [specChecksumText, List.filter_cons, hreg]

theorem specChecksumText_cons_nonreg (hashFn : Nat → Bytes → Bytes) (fs : GoFS) (a : Nat)
    (f : MFile) (fsl : List MFile) (hreg : ¬ f.ftype = TypeREG) :
    specChecksumText hashFn fs a (f :: fsl) = specChecksumText hashFn fs a fsl := by
  simp [specChecksumText, List.filter_cons, hreg]

set_option maxHeartbeats 1000000 in
/-- The data-partition loop records per-file digests that make the
accumulated checksum text equal the independently recomputed one: one line
per regular entry, in manifest order, digest of the exact content bytes. -/
theorem dataLoop_checksum (hashFn : Nat → Bytes → Bytes) (fs : GoFS) (zt : Nat)
    (algos : List Nat) :
    ∀ files idx ents files1,
      dataLoop hashFn fs zt algos files idx = some (.ok (ents, files1)) →
      ∀ a ∈ algos, checksumBytes a files1 = specChecksumText hashFn fs a files := by
  intro files
  induction files with
  | nil =>
    intro idx ents files1 h a ha
    simp only [dataLoop] at h
    cases h
    rfl
  | cons f rest ih =>
    intro idx ents files1 h a ha
    simp only [dataLoop] at h
    cases hth : asTarHeader { f with isHashed := false, hashes := [] } with
    | none => simp only [hth] at h; cases h
    | some hdr0 =>
      simp only [hth] at h
      by_cases hreg : f.ftype = TypeREG
      · simp only [if_pos hreg] at h
        cases hrd : readerOf fs { f with isHashed := false, hashes := [] } with
        | none => simp only [hrd] at h; cases h
        | some r =>
          cases r with
          | error e => simp only [hrd] at h; cases h
          | ok content =>
            simp only [hrd] at h
            cases hrec : dataLoop hashFn fs zt algos rest (idx + 1) with
            | none => simp only [hrec] at h; cases h
            | some rr =>
              cases rr with
              | error e => simp only [hrec] at h; cases h
              | ok pr =>
                obtain ⟨ents2, rest1⟩ := pr
                simp only [hrec] at h
                cases h
                have hcontent : content = specContent fs f :=
                  readerOf_ok_content fs { f with isHashed := false, hashes := [] } content hreg hrd
                rw [checksumBytes_cons_hashed a _ rest1 rfl,
                  specChecksumText_cons_reg hashFn fs a f rest hreg,
                  ih (idx + 1) ents2 rest1 hrec a ha]
                have hlk : lookupHash (algos.map (fun x => (x, hashFn x content))) a
                    = hashFn a content := by
                  simp only [lookupHash, lookup_map_self algos (fun x => hashFn x content) a ha,
                    Option.getD_some]
                show strBytes (hexEncode (lookupHash (algos.map (fun x => (x, hashFn x content))) a))
                    ++ strBytes "  " ++ strBytes f.name ++ strBytes "\n"
                    ++ specChecksumText hashFn fs a rest = _
                rw [hlk, hcontent]
      · simp only [if_neg hreg] at h
        cases hrec : dataLoop hashFn fs zt algos rest (idx + 1) with
        | none => simp only [hrec] at h; cases h
        | some rr =>
          cases rr with
          | error e => simp only [hrec] at h; cases h
          | ok pr =>
            obtain ⟨ents2, rest1⟩ := pr
            simp only [hrec] at h
            cases h
            rw [checksumBytes_cons_unhashed a _ rest1 rfl,
              specChecksumText_cons_nonreg hashFn fs a f rest hreg]
            exact ih (idx + 1) ents2 rest1 hrec a ha

/-- The per-algorithm checksum members flattened into explicit entries. -/
theorem flatten_map_entry (zt : Nat) (files : List MFile) (algos : List Nat) :
    ((algos.map (fun a => writeControlEntry zt (hashFileName a) false
        (some (checksumBytes a files)))).flatten)
      = algos.map (fun a =>
          { hdr := { typeflag := tarTypeReg, name := hashFileName a,
                     mode := unixModeREG ||| 0o644 ||| 0,
                     size := ((checksumBytes a files).length : Int), mtime := zt },
            content := checksumBytes a files }) := by
  induction algos with
  | nil => rfl
  | cons a rest ih =>
    rw [List.map_cons, List.flatten_cons, ih, List.map_cons]
    rfl

/-- C3: after a successful data-partition build, the control members right
after `control` are one checksum file per configured algorithm, in
configured order, named canonically (`md5sum`/`sha1sum`/`sha256sum`), whose
content is one `<lowercase hex digest><two spaces><name>\n` line for
exactly the regular-file entries in manifest order, each digest the
independently recomputed hash of that entry's exact content bytes. -/
theorem c3_checksum_files (tarEnc : List TarEntry → Bytes) (cEnc : Nat → Bytes → Bytes)
    (hashFn : Nat → Bytes → Bytes) (b : Builder) (m : Manifest) (db : Bytes) (m2 : Manifest)
    (h : buildDataTarball tarEnc cEnc hashFn b m = some (.ok (db, m2))) :
    (hashFileName HashMD5 = "md5sum" ∧ hashFileName HashSHA1 = "sha1sum"
      ∧ hashFileName HashSHA256 = "sha256sum")
    ∧ ∃ es, controlEntries (fillDefaults b) m2 = some es
        ∧ (es.drop 1).take ((fillDefaults b).hashes.getD []).length
            = ((fillDefaults b).hashes.getD []).map (fun a =>
                { hdr := { typeflag := tarTypeReg, name := hashFileName a,
                           mode := unixModeREG ||| 0o644 ||| 0,
                           size := ((specChecksumText hashFn (fillDefaults b).root a
                             m.files).length : Int),
                           mtime := (fillDefaults b).zeroTime },
                  content := specChecksumText hashFn (fillDefaults b).root a m.files }) := by
  obtain ⟨hres, ⟨comp, hnw⟩, ents, files1, hdl, hm2⟩ :=
    buildDataTarball_ok tarEnc cEnc hashFn b m db m2 h
  have hres2 : m2.isResolved = true := by rw [hm2]; exact hres
  have hfiles : m2.files = files1 := by rw [hm2]
  have hck : ∀ a ∈ (fillDefaults b).hashes.getD [],
      checksumBytes a m2.files = specChecksumText hashFn (fillDefaults b).root a m.files := by
    intro a ha
    rw [hfiles]
    exact dataLoop_checksum hashFn (fillDefaults b).root (fillDefaults b).zeroTime
      ((fillDefaults b).hashes.getD []) m.files 0 ents files1 hdl a ha
  refine ⟨by decide, _, controlEntries_eq (fillDefaults b) m2 hres2, ?_⟩
  simp only [List.append_assoc]
  have hD : ∀ l : List TarEntry,
      ((writeControlEntry (fillDefaults b).zeroTime "control" false
        (some (strBytes (controlText m2)))) ++ l).drop 1 = l := fun l => rfl
  rw [hD, flatten_map_entry]
  rw [List.take_append_of_le_length (by simp)]
  rw [List.take_of_length_le (by simp)]
  refine List.map_congr_left ?_
  intro a ha
  rw [hck a ha]

/-- C3 (witness): the demo data build's checksum members are the three
canonical files with independently recomputed digests. -/
theorem c3_checksum_files_witness :
    (hashFileName HashMD5 = "md5sum" ∧ hashFileName HashSHA1 = "sha1sum"
      ∧ hashFileName HashSHA256 = "sha256sum")
    ∧ ∃ es, controlEntries (fillDefaults demoB) demoDataM2 = some es
        ∧ (es.drop 1).take ((fillDefaults demoB).hashes.getD []).length
            = ((fillDefaults demoB).hashes.getD []).map (fun a =>
                { hdr := { typeflag := tarTypeReg, name := hashFileName a,
                           mode := unixModeREG ||| 0o644 ||| 0,
                           size := ((specChecksumText demoHash (fillDefaults demoB).root a
                             demoM1.files).length : Int),
                           mtime := (fillDefaults demoB).zeroTime },
                  content := specChecksumText demoHash (fillDefaults demoB).root a
                    demoM1.files }) :=
  c3_checksum_files demoTar demoCmp demoHash demoB demoM1 demoDataBytes demoDataM2 (by rfl)

/-! ## Claim C1 -/

/-- A successful `writeArFile` decomposes into the magic plus the three
entries in fixed order. -/
theorem writeArFile_ok (suffix : String) (ctl data out : Bytes)
    (h : writeArFile suffix ctl data = some out) :
    ∃ e1 e2 e3,
      writeArEntry (strBytes "debian-binary") debianBinary.length debianBinary = some e1
      ∧ writeArEntry (strBytes ("control.tar" ++ suffix)) ctl.length ctl = some e2
      ∧ writeArEntry (strBytes ("data.tar" ++ suffix)) data.length data = some e3
      ∧ out = arMagic ++ e1 ++ e2 ++ e3 := by
  simp only [writeArFile, Option.bind_eq_bind'] at h
  cases h1 : writeArEntry (strBytes "debian-binary") debianBinary.length debianBinary with
  | none => rw [h1] at h; simp only [Option.none_bind] at h; cases h
  | some e1 =>
    rw [h1] at h
    simp only [Option.some_bind] at h
    cases h2 : writeArEntry (strBytes ("control.tar" ++ suffix)) ctl.length ctl with
    | none => rw [h2] at h; simp only [Option.none_bind] at h; cases h
    | some e2 =>
      rw [h2] at h
      simp only [Option.some_bind] at h
      cases h3 : writeArEntry (strBytes ("data.tar" ++ suffix)) data.length data with
      | none => rw [h3] at h; simp only [Option.none_bind] at h; cases h
      | some e3 =>
        rw [h3] at h
        simp only [Option.some_bind] at h
        cases h
        exact ⟨e1, e2, e3, rfl, rfl, rfl, rfl⟩

/-- A successful `Build` produced its output through `writeArFile` with the
resolved compression suffix. -/
theorem build_ok (tarEnc : List TarEntry → Bytes) (cEnc : Nat → Bytes → Bytes)
    (hashFn : Nat → Bytes → Bytes) (b : Builder) (m : Manifest) (out : Bytes) (m2 : Manifest)
    (h : build tarEnc cEnc hashFn b m = some (.ok (out, m2))) :
    ∃ ctl data, writeArFile (compressSuffix (fillDefaults b).compression) ctl data = some out := by
  simp only [build] at h
  cases h1 : mResolve (fillDefaults b).root m with
  | none => simp only [h1] at h; cases h
  | some r =>
    cases r with
    | error e => simp only [h1] at h; cases h
    | ok m1 =>
      simp only [h1] at h
      cases h2 : buildDataTarball tarEnc cEnc hashFn (fillDefaults b) m1 with
      | none => simp only [h2] at h; cases h
      | some r2 =>
        cases r2 with
        | error e => simp only [h2] at h; cases h
        | ok pr =>
          obtain ⟨dataBytes, m2x⟩ := pr
          simp only [h2] at h
          cases h3 : buildControlTarball tarEnc cEnc (fillDefaults b) m2x with
          | none => simp only [h3] at h; cases h
          | some r3 =>
            cases r3 with
            | error e => simp only [h3] at h; cases h
            | ok ctlBytes =>
              simp only [h3] at h
              cases h4 : writeArFile (compressSuffix (fillDefaults b).compression)
                  ctlBytes dataBytes with
              | none => simp only [h4] at h; cases h
              | some o =>
                simp only [h4] at h
                cases h
                exact ⟨ctlBytes, dataBytes, h4⟩

/-- `fillDefaults` resolves `Auto` compression to gzip. -/
theorem fillDefaults_auto_gzip (b : Builder) (hc : b.compression = CompressAuto) :
    (fillDefaults b).compression = CompressGZIP := by
  simp [fillDefaults, hc]

/-- C1: a successful build with `Auto` compression yields the 8-byte ar
magic at offset 0, followed by exactly the three entries `debian-binary`
(content the 4 bytes `2.0\n`), `control.tar.gz` and `data.tar.gz`, in that
order, the `.gz` suffix coming from `Auto` resolving to gzip. -/
theorem c1_container_layout (tarEnc : List TarEntry → Bytes) (cEnc : Nat → Bytes → Bytes)
    (hashFn : Nat → Bytes → Bytes) (b : Builder) (m : Manifest) (out : Bytes) (m2 : Manifest)
    (hauto : b.compression = CompressAuto)
    (h : build tarEnc cEnc hashFn b m = some (.ok (out, m2))) :
    out.take 8 = strBytes "!<arch>\n"
    ∧ ∃ ctl data e1 e2 e3,
        writeArEntry (strBytes "debian-binary") 4 (strBytes "2.0\n") = some e1
        ∧ writeArEntry (strBytes "control.tar.gz") ctl.length ctl = some e2
        ∧ writeArEntry (strBytes "data.tar.gz") data.length data = some e3
        ∧ out = strBytes "!<arch>\n" ++ e1 ++ e2 ++ e3 := by
  obtain ⟨ctl, data, hw⟩ := build_ok tarEnc cEnc hashFn b m out m2 h
  rw [fillDefaults_auto_gzip b hauto] at hw
  rw [show compressSuffix CompressGZIP = ".gz" from rfl] at hw
  obtain ⟨e1, e2, e3, he1, he2, he3, hout⟩ := writeArFile_ok ".gz" ctl data out hw
  refine ⟨?_, ctl, data, e1, e2, e3, he1, he2, he3, ?_⟩
  · rw [hout, List.append_assoc, List.append_assoc,
      List.take_append_of_le_length (by decide : (8 : Nat) ≤ arMagic.length),
      List.take_of_length_le (by decide : arMagic.length ≤ 8)]
    rfl
  · rw [hout]
    rfl

/-- C1 (witness): the demo build's container starts with the ar magic and
consists of the three fixed-order entries with `.gz`-suffixed names. -/
theorem c1_container_layout_witness :
    demoOut.take 8 = strBytes "!<arch>\n"
    ∧ ∃ ctl data e1 e2 e3,
        writeArEntry (strBytes "debian-binary") 4 (strBytes "2.0\n") = some e1
        ∧ writeArEntry (strBytes "control.tar.gz") ctl.length ctl = some e2
        ∧ writeArEntry (strBytes "data.tar.gz") data.length data = some e3
        ∧ demoOut = strBytes "!<arch>\n" ++ e1 ++ e2 ++ e3 :=
  c1_container_layout demoTar demoCmp demoHash demoB demoM demoOut demoM2 (by decide) (by rfl)

end Mkdeb
